import Mathlib

/-!
Verification of the per-file header/doc synchronization engine of
`scripts/inject_headers.py` (repository `aegis-orchestrator`).

The program is a line-oriented text rewriter.  We embed it shallowly:
a line is a list of characters (Python `str` without the newline), a
file's content is a list of characters, and every helper of the script
(`determine_layer`, `determine_adrs`, the license scan, the doc-comment
scan, the doc-block synthesis and the final reassembly of
`process_file`) is translated into an executable Lean function over
these types.  Python's string primitives used by the script
(`startswith`, `in` (substring), `strip`, `replace`, `lower`,
`title`, `split`, `join`, `os.path.basename`) are modelled by the
corresponding functions on `List Char` below.
-/

/-- A line of text: the characters of a Python string (no newline inside). -/
abbrev Line := List Char

/-- The characters of a string literal. -/
def lit (s : String) : Line := s.data

/-- Python `s.startswith(p)`. -/
def startsWithB : Line → Line → Bool
  | _, [] => true
  | [], _ :: _ => false
  | c :: cs, p :: ps => c == p && startsWithB cs ps

/-- Python `p in s` (substring containment). -/
def containsSub : Line → Line → Bool
  | [], pat => startsWithB [] pat
  | c :: cs, pat => startsWithB (c :: cs) pat || containsSub cs pat

/-- The whitespace characters stripped by Python `str.strip()` (ASCII). -/
def isPySpace (c : Char) : Bool :=
  c == ' ' || c == '\t' || c == '\n' || c == '\r' ||
    c == Char.ofNat 11 || c == Char.ofNat 12

/-- Python `s.strip()`. -/
def pyStrip (l : Line) : Line :=
  ((l.dropWhile isPySpace).reverse.dropWhile isPySpace).reverse

/-- Python `s.strip() == ''`: the line is empty or all whitespace. -/
def isBlank (l : Line) : Bool := pyStrip l == []

/-- Python `s.replace(pat, repl)`, fuelled so that the recursion is
structural (any fuel of at least `l.length` gives the same result,
since every step consumes at least one character of `l`): replace all
non-overlapping occurrences, left to right.  The script only uses
non-empty patterns. -/
def replaceAllAux : Nat → Line → Line → Line → Line
  | 0, l, _, _ => l
  | _ + 1, [], _, _ => []
  | fuel + 1, c :: cs, pat, repl =>
    if startsWithB (c :: cs) pat && !pat.isEmpty then
      repl ++ replaceAllAux fuel (cs.drop (pat.length - 1)) pat repl
    else
      c :: replaceAllAux fuel cs pat repl

/-- Python `s.replace(pat, repl)`. -/
def replaceAll (l pat repl : Line) : Line := replaceAllAux l.length l pat repl

/-- Python `s.lower()` (ASCII). -/
def pyLower (l : Line) : Line := l.map Char.toLower

/-- Python `s.title()`: the first character of every maximal run of
letters is uppercased, the following letters are lowercased.  The
boolean argument records whether the previous character was a letter. -/
def pyTitleAux : Bool → Line → Line
  | _, [] => []
  | prevAlpha, c :: cs =>
    (if c.isAlpha then (if prevAlpha then c.toLower else c.toUpper) else c)
      :: pyTitleAux c.isAlpha cs

/-- Python `s.title()`. -/
def pyTitle (l : Line) : Line := pyTitleAux false l

/-- `os.path.basename`: the part of the path after the last separator
(`/` or `\`). -/
def basename (l : Line) : Line :=
  (l.reverse.takeWhile (fun c => !(c == '/' || c == '\\'))).reverse

/-- Python `', '.join(xs)`. -/
def joinComma : List Line → Line
  | [] => []
  | [a] => a
  | a :: b :: rest => a ++ lit ", " ++ joinComma (b :: rest)

/-- Python `content.split('\n')`. -/
def splitNl : List Char → List Line
  | [] => [[]]
  | c :: cs =>
    if c == '\n' then [] :: splitNl cs
    else
      match splitNl cs with
      | [] => [[c]]
      | l :: ls => (c :: l) :: ls

/-- Python `'\n'.join(lines)`. -/
def joinNl : List Line → List Char
  | [] => []
  | [l] => l
  | l :: m :: rest => l ++ '\n' :: joinNl (m :: rest)

/-- The static `ADR_MAPPINGS` dict of the script, in insertion order. -/
def ADR_MAPPINGS : List (Line × Line) := [
  (lit "cortex/src/infrastructure/embedding_client.rs",
    lit "ADR-028: Embedding Model Selection"),
  (lit "cortex/src/application/cortex_pruner.rs",
    lit "ADR-029: Cortex Time-Decay Parameters"),
  (lit "orchestrator/core/src/infrastructure/runtime.rs",
    lit "ADR-027: Docker Runtime Implementation"),
  (lit "orchestrator/core/src/infrastructure/event_bus.rs",
    lit "ADR-030: Event Bus Architecture"),
  (lit "orchestrator/core/src/application/workflow_engine.rs",
    lit "ADR-031: Handlebars Template Engine"),
  (lit "orchestrator/core/src/domain/volume.rs",
    lit "ADR-032: Unified Storage via SeaweedFS"),
  (lit "orchestrator/tool_integration",
    lit "ADR-033: Orchestrator-Mediated MCP Tool Routing"),
  (lit "orchestrator/core/src/infrastructure/secrets",
    lit "ADR-034: OpenBao Secrets Management"),
  (lit "orchestrator/core/src/infrastructure/smcp",
    lit "ADR-035: SMCP Implementation"),
  (lit "orchestrator/core/src/infrastructure/nfs_gateway",
    lit "ADR-036: NFS Server Gateway Architecture"),
  (lit "storage/fsal",
    lit "ADR-036: NFS Server Gateway Architecture")]

/-- `determine_layer` of the script: first matching substring rule on
the lowercased path, defaulting to `Core System`. -/
def determine_layer (path : Line) : Line :=
  let pl := pyLower path
  if containsSub pl (lit "domain\\") || containsSub pl (lit "domain/") then
    lit "Domain Layer"
  else if containsSub pl (lit "application\\") || containsSub pl (lit "application/") then
    lit "Application Layer"
  else if containsSub pl (lit "infrastructure\\") || containsSub pl (lit "infrastructure/") then
    lit "Infrastructure Layer"
  else if containsSub pl (lit "presentation\\") || containsSub pl (lit "presentation/") then
    lit "Presentation Layer"
  else if containsSub pl (lit "cli\\") || containsSub pl (lit "cli/") then
    lit "Interface / Presentation Layer"
  else if containsSub pl (lit "swarm\\") || containsSub pl (lit "swarm/") then
    lit "Swarm Coordination Layer"
  else if containsSub pl (lit "cortex\\") || containsSub pl (lit "cortex/") then
    lit "Learning & Memory Layer"
  else lit "Core System"

/-- `determine_adrs` of the script: normalize separators, then append,
in table order, the ADR of every entry whose pattern occurs in the
normalized path (no early exit). -/
def determine_adrs (path_str : Line) : List Line :=
  let path_norm := replaceAll path_str (lit "\\") (lit "/")
  ADR_MAPPINGS.foldl
    (fun adrs pa => if containsSub path_norm pa.1 then adrs ++ [pa.2] else adrs) []

/-- A line consumed by step 1 of `process_file`: it starts with the
copyright marker or the SPDX marker. -/
def isLicenseLine (l : Line) : Bool :=
  startsWithB l (lit "// Copyright (c)") || startsWithB l (lit "// SPDX-License-Identifier")

/-- Step 1 of `process_file`: the while-loop scanning the leading
license header.  `idx` is the current absolute line index, `cp` the
`copyright_present` flag so far.  Returns the consumed lines and the
final flag (the final cursor is the number of consumed lines plus the
initial index). -/
def licenseScanAux : List Line → Nat → Bool → List Line × Bool
  | [], _, cp => ([], cp)
  | l :: rest, idx, cp =>
    if isLicenseLine l then
      let r := licenseScanAux rest (idx + 1) true
      (l :: r.1, r.2)
    else if isBlank l && cp && decide (idx < 2) then
      let r := licenseScanAux rest (idx + 1) cp
      (l :: r.1, r.2)
    else ([], cp)

/-- The license scan of `process_file`, started at index 0 with
`copyright_present = False`. -/
def licenseScan (lines : List Line) : List Line × Bool := licenseScanAux lines 0 false

/-- The license header template prepended when no copyright was found. -/
def licenseHeader : List Line :=
  [lit "// Copyright (c) 2026 100monkeys.ai",
   lit "// SPDX-License-Identifier: AGPL-3.0",
   []]

/-- Step 2 of `process_file`: the while-loop collecting `doc_lines`.
A line is consumed while it starts with `//!` or is blank; a blank
line met while `doc_lines` is still empty is skipped (cursor advances,
nothing collected).  Returns the collected lines and the number of
lines the cursor advanced past.  The boolean argument is
`doc_lines ≠ []` so far. -/
def docScanAux : List Line → Bool → List Line × Nat
  | [], _ => ([], 0)
  | l :: rest, ne =>
    if startsWithB l (lit "//!") || isBlank l then
      if isBlank l && !ne then
        let r := docScanAux rest ne
        (r.1, r.2 + 1)
      else
        let r := docScanAux rest true
        (l :: r.1, r.2 + 1)
    else ([], 0)

/-- The `while doc_lines and doc_lines[-1].strip() == '': doc_lines.pop()`
loop: drop trailing blank lines. -/
def stripTrailingBlanks (ls : List Line) : List Line :=
  (ls.reverse.dropWhile isBlank).reverse

/-- The literal Architecture heading searched for by the script. -/
def archHeading : Line := lit "//! # Architecture"

/-- `any('//! # Architecture' in line for line in doc_lines)`. -/
def hasArchitecture (doc : List Line) : Bool :=
  doc.any (fun l => containsSub l archHeading)

/-- The literal phrase whose presence marks an existing references bullet. -/
def relatedADRs : Line := lit "Related ADRs"

/-- `any('Related ADRs' in line for line in doc_lines)`. -/
def hasAdrsLine (doc : List Line) : Bool :=
  doc.any (fun l => containsSub l relatedADRs)

/-- `module_name` of `process_file`: basename, then `.replace('.rs', '')`,
then `.replace('_', ' ')`, then `.title()`. -/
def module_name (filepath : Line) : Line :=
  pyTitle (replaceAll (replaceAll (basename filepath) (lit ".rs") []) (lit "_") (lit " "))

/-- The `Related ADRs` bullet built by the script. -/
def adrsBullet (adrs : List Line) : Line :=
  lit "//! - **Related ADRs:** " ++ joinComma adrs

/-- The doc block synthesized when there are no doc comments at all
(Case A of the script). -/
def caseALines (m layer : Line) (adrs : List Line) : List Line :=
  [lit "//! " ++ m,
   lit "//!",
   lit "//! Provides " ++ pyLower m ++ lit " functionality for the system.",
   lit "//!",
   archHeading,
   lit "//!",
   lit "//! - **Layer:** " ++ layer,
   lit "//! - **Purpose:** Implements " ++ pyLower m]
  ++ (if adrs.isEmpty then [] else [adrsBullet adrs])

/-- The Architecture section appended to existing doc comments that
have no Architecture heading (Case B of the script). -/
def caseBSuffix (m layer : Line) (adrs : List Line) : List Line :=
  [lit "//!",
   archHeading,
   lit "//!",
   lit "//! - **Layer:** " ++ layer,
   lit "//! - **Purpose:** Implements internal responsibilities for " ++ pyLower m]
  ++ (if adrs.isEmpty then [] else [adrsBullet adrs])

/-- Number of elements a cursor advances while `p` holds (the script's
`while` loops over `doc_lines[insert_idx]`). -/
def advanceWhile (p : Line → Bool) : List Line → Nat
  | [] => 0
  | l :: rest => if p l then advanceWhile p rest + 1 else 0

/-- The condition of the script's first insertion-point loop:
`strip() != '//!'`, not startswith `//!-`, does not contain
`Related ADRs`, and startswith `//! -`. -/
def condC1 (l : Line) : Bool :=
  !(pyStrip l == lit "//!") && !(startsWithB l (lit "//!-")) &&
    !(containsSub l relatedADRs) && startsWithB l (lit "//! -")

/-- Python `list.insert(i, a)` (clamped at the end like Python). -/
def insertAt (i : Nat) (a : Line) (ls : List Line) : List Line :=
  ls.take i ++ [a] ++ ls.drop i

/-- The doc-block synthesis of `process_file` (the `if not
has_architecture ... else ...` block): produces the new `doc_lines`. -/
def synthDoc (filepath : Line) (doc : List Line) : List Line :=
  let m := module_name filepath
  let layer := determine_layer filepath
  let adrs := determine_adrs filepath
  if !(hasArchitecture doc) then
    if doc.isEmpty then caseALines m layer adrs
    else doc ++ caseBSuffix m layer adrs
  else
    if !adrs.isEmpty && !(hasAdrsLine doc) then
      let ai := doc.findIdx (fun l => containsSub l archHeading)
      let s := doc.drop (ai + 1)
      let a := advanceWhile condC1 s
      let b := advanceWhile (fun l => startsWithB l (lit "//! -")) (s.drop a)
      insertAt (ai + 1 + a + b) (adrsBullet adrs) doc
    else doc

/-- The lines the cursor points at after step 1 (when `copyright_present`
the consumed lines are skipped, otherwise the cursor is reset to 0). -/
def restAfterLicense (lines : List Line) : List Line :=
  if (licenseScan lines).2 then lines.drop (licenseScan lines).1.length else lines

/-- The `out_lines` accumulated by step 1 (consumed license lines,
with the synthesized header prepended when none was found). -/
def licenseZoneOut (lines : List Line) : List Line :=
  if (licenseScan lines).2 then (licenseScan lines).1
  else licenseHeader ++ (licenseScan lines).1

/-- The `doc_lines` of `process_file` after the trailing-blank strip. -/
def docZoneOf (lines : List Line) : List Line :=
  stripTrailingBlanks (docScanAux (restAfterLicense lines) false).1

/-- The lines appended at the end of `process_file`: the remainder after
the doc scan, with the separating blank lines skipped. -/
def bodyZone (lines : List Line) : List Line :=
  ((restAfterLicense lines).drop (docScanAux (restAfterLicense lines) false).2).dropWhile isBlank

/-- The whole line-level rewrite of `process_file`: license zone,
synthesized doc zone, one separating blank line (when the doc zone is
non-empty), then the body. -/
def processLines (filepath : Line) (lines : List Line) : List Line :=
  let doc2 := synthDoc filepath (docZoneOf lines)
  licenseZoneOut lines ++ doc2 ++ (if doc2.isEmpty then [] else [[]]) ++ bodyZone lines

/-- The pure text rewrite of `process_file`: split on newlines, rewrite
the lines, join with newlines.  `process_file` writes the result back
only when it differs from the input. -/
def process_file (filepath : Line) (content : List Char) : List Char :=
  joinNl (processLines filepath (splitNl content))

/-! ## Bridge lemmas: the Python string primitives vs list predicates -/

theorem startsWithB_iff : ∀ (l p : Line), startsWithB l p = true ↔ p <+: l
  | _, [] => by simp [startsWithB]
  | [], _ :: _ => by simp [startsWithB]
  | c :: cs, p :: ps => by
    rw [startsWithB, Bool.and_eq_true, beq_iff_eq, startsWithB_iff cs ps,
      List.cons_prefix_cons]
    exact and_congr_left' eq_comm

theorem containsSub_iff : ∀ (l p : Line), containsSub l p = true ↔ p <:+: l
  | [], p => by
    rw [containsSub, startsWithB_iff, List.prefix_nil, List.infix_nil]
  | c :: cs, p => by
    rw [containsSub, Bool.or_eq_true, startsWithB_iff, containsSub_iff cs p,
      List.infix_cons_iff]

theorem startsWith_append_left {a pre : Line} (b : Line)
    (h : startsWithB a pre = true) : startsWithB (a ++ b) pre = true := by
  rw [startsWithB_iff] at h ⊢
  exact h.trans (List.prefix_append a b)

theorem contains_append_left {a p : Line} (b : Line)
    (h : containsSub a p = true) : containsSub (a ++ b) p = true := by
  rw [containsSub_iff] at h ⊢
  exact h.trans (List.prefix_append a b).isInfix

theorem contains_append_right {b p : Line} (a : Line)
    (h : containsSub b p = true) : containsSub (a ++ b) p = true := by
  rw [containsSub_iff] at h ⊢
  exact h.trans (List.suffix_append a b).isInfix

theorem contains_trans {l p q : Line} (hpq : containsSub p q = true)
    (h : containsSub l p = true) : containsSub l q = true := by
  rw [containsSub_iff] at hpq h ⊢
  exact hpq.trans h

theorem mem_of_contains {l p : Line} {c : Char} (h : containsSub l p = true)
    (hc : c ∈ p) : c ∈ l := by
  rw [containsSub_iff] at h
  exact h.sublist.subset hc

theorem isBlank_iff {l : Line} : isBlank l = true ↔ ∀ c ∈ l, isPySpace c = true := by
  unfold isBlank pyStrip
  rw [beq_iff_eq, List.reverse_eq_nil_iff, List.dropWhile_eq_nil_iff]
  constructor
  · intro h c hc
    rcases List.mem_append.1
        ((List.takeWhile_append_dropWhile (p := isPySpace) (l := l)) ▸ hc) with h1 | h1
    · exact List.mem_takeWhile_imp h1
    · exact h c (List.mem_reverse.2 h1)
  · intro h c hc
    exact h c ((List.dropWhile_sublist isPySpace).subset (List.mem_reverse.1 hc))

/-! ## Character lemmas: `toLower` never yields an uppercase letter -/

theorem char_ofNat_ne_A {m : Nat} (h1 : 97 ≤ m) (h2 : m ≤ 122) :
    Char.ofNat m ≠ 'A' := by
  interval_cases m <;> decide

theorem char_ofNat_ne_D {m : Nat} (h1 : 97 ≤ m) (h2 : m ≤ 122) :
    Char.ofNat m ≠ 'D' := by
  interval_cases m <;> decide

theorem toLower_eq_of_upper {c : Char} (h : c.toNat ≥ 65 ∧ c.toNat ≤ 90) :
    c.toLower = Char.ofNat (c.toNat + 32) := by
  unfold Char.toLower
  exact if_pos h

theorem toLower_eq_self {c : Char} (h : ¬(c.toNat ≥ 65 ∧ c.toNat ≤ 90)) :
    c.toLower = c := by
  unfold Char.toLower
  exact if_neg h

theorem toLower_ne_A (c : Char) : c.toLower ≠ 'A' := by
  by_cases h : c.toNat ≥ 65 ∧ c.toNat ≤ 90
  · rw [toLower_eq_of_upper h]
    exact char_ofNat_ne_A (by omega) (by omega)
  · rw [toLower_eq_self h]
    intro hc
    rw [hc] at h
    exact h (by decide)

theorem toLower_ne_D (c : Char) : c.toLower ≠ 'D' := by
  by_cases h : c.toNat ≥ 65 ∧ c.toNat ≤ 90
  · rw [toLower_eq_of_upper h]
    exact char_ofNat_ne_D (by omega) (by omega)
  · rw [toLower_eq_self h]
    intro hc
    rw [hc] at h
    exact h (by decide)

/-! ## No line produced from a module name or a lowercased string can
contain the substring `AD`, hence none can contain `Related ADRs`. -/

theorem lower_no_AD : ∀ (l : Line), containsSub (pyLower l) ('A' :: 'D' :: []) = false
  | [] => by decide
  | c :: cs => by
    have ih := lower_no_AD cs
    show containsSub (c.toLower :: pyLower cs) ('A' :: 'D' :: []) = false
    rw [containsSub, ih, Bool.or_false]
    rw [startsWithB]
    have hA : (c.toLower == 'A') = false := beq_eq_false_iff_ne.2 (toLower_ne_A c)
    rw [hA, Bool.false_and]

theorem titleAux_head_ne_D : ∀ (cs : Line),
    startsWithB (pyTitleAux true cs) ('D' :: []) = false
  | [] => by decide
  | d :: ds => by
    rw [pyTitleAux]
    by_cases hd : d.isAlpha = true
    · rw [if_pos hd, if_pos rfl, startsWithB,
        beq_eq_false_iff_ne.2 (toLower_ne_D d), Bool.false_and]
    · rw [if_neg hd, startsWithB]
      have hD : (d == 'D') = false := by
        rw [beq_eq_false_iff_ne]
        intro h
        rw [h] at hd
        exact hd (by decide)
      rw [hD, Bool.false_and]

theorem title_no_AD : ∀ (l : Line) (b : Bool),
    containsSub (pyTitleAux b l) ('A' :: 'D' :: []) = false
  | [], _ => by rw [pyTitleAux]; decide
  | c :: cs, b => by
    rw [pyTitleAux, containsSub, title_no_AD cs c.isAlpha, Bool.or_false]
    by_cases hca : c.isAlpha = true
    · rw [hca, startsWithB, titleAux_head_ne_D cs, Bool.and_false]
    · rw [if_neg hca, startsWithB]
      have hc : (c == 'A') = false := by
        rw [beq_eq_false_iff_ne]
        intro h
        rw [h] at hca
        exact hca (by decide)
      rw [hc, Bool.false_and]

theorem no_AD_append : ∀ (a : Line), containsSub a ('A' :: 'D' :: []) = false →
    a.getLast? ≠ some 'A' → ∀ b : Line, containsSub b ('A' :: 'D' :: []) = false →
    containsSub (a ++ b) ('A' :: 'D' :: []) = false
  | [] => fun _ _ b hb => by simpa using hb
  | [c] => fun _ hl b hb => by
    show containsSub (c :: b) ('A' :: 'D' :: []) = false
    rw [containsSub, hb, Bool.or_false, startsWithB]
    have hc : (c == 'A') = false := by
      rw [beq_eq_false_iff_ne]
      intro h
      exact hl (by rw [h]; rfl)
    rw [hc, Bool.false_and]
  | c :: c2 :: a2 => fun ha hl b hb => by
    rw [containsSub, Bool.or_eq_false_iff] at ha
    have ih := no_AD_append (c2 :: a2) ha.2
      (by rwa [List.getLast?_cons_cons] at hl) b hb
    show containsSub (c :: ((c2 :: a2) ++ b)) ('A' :: 'D' :: []) = false
    rw [containsSub, ih, Bool.or_false]
    have hs := ha.1
    simp only [startsWithB, List.cons_append] at hs ⊢
    exact hs

/-- A line with no `AD` substring cannot contain `Related ADRs`. -/
theorem no_relatedADRs {l : Line} (h : containsSub l ('A' :: 'D' :: []) = false) :
    containsSub l relatedADRs = false := by
  cases hrel : containsSub l relatedADRs with
  | false => rfl
  | true =>
    have hAD : containsSub l ('A' :: 'D' :: []) = true :=
      contains_trans (by decide) hrel
    rw [hAD] at h
    cases h

/-- A blank line cannot contain `Related ADRs`. -/
theorem blank_no_relatedADRs {l : Line} (h : isBlank l = true) :
    containsSub l relatedADRs = false := by
  cases hrel : containsSub l relatedADRs with
  | false => rfl
  | true =>
    have hR : 'R' ∈ l := mem_of_contains hrel (by decide)
    have := isBlank_iff.1 h 'R' hR
    exact absurd this (by decide)

/-- A line starting with `//!` is not blank. -/
theorem not_blank_of_docStart {l : Line} (h : startsWithB l (lit "//!") = true) :
    isBlank l = false := by
  cases hb : isBlank l with
  | false => rfl
  | true =>
    rw [startsWithB_iff] at h
    have hm : '/' ∈ l := h.sublist.subset (by decide)
    have := isBlank_iff.1 hb '/' hm
    exact absurd this (by decide)

theorem startsWith_nil (q : Line) : startsWithB q [] = true := by
  cases q <;> rfl

/-- Two prefixes of the same list are comparable. -/
theorem startsWith_total : ∀ (l p q : Line), startsWithB l p = true →
    startsWithB l q = true → startsWithB p q = true ∨ startsWithB q p = true
  | _, [], q, _, _ => Or.inr (startsWith_nil q)
  | _, _ :: _, [], _, _ => Or.inl (startsWith_nil _)
  | [], _ :: _, _ :: _, hp, _ => by rw [startsWithB] at hp; cases hp
  | c :: cs, p :: ps, q :: qs, hp, hq => by
    rw [startsWithB, Bool.and_eq_true, beq_iff_eq] at hp hq
    rcases startsWith_total cs ps qs hp.2 hq.2 with h | h
    · exact Or.inl (by
        rw [startsWithB, Bool.and_eq_true, beq_iff_eq]
        exact ⟨hp.1.symm.trans hq.1, h⟩)
    · exact Or.inr (by
        rw [startsWithB, Bool.and_eq_true, beq_iff_eq]
        exact ⟨hq.1.symm.trans hp.1, h⟩)

/-- A line starting with `//!` is not a license line. -/
theorem not_license_of_docStart {l : Line} (h : startsWithB l (lit "//!") = true) :
    isLicenseLine l = false := by
  cases hl : isLicenseLine l with
  | false => rfl
  | true =>
    rw [isLicenseLine, Bool.or_eq_true] at hl
    rcases hl with h2 | h2 <;>
      rcases startsWith_total l _ _ h h2 with h3 | h3 <;>
        exact absurd h3 (by decide)

/-! ## Case equations for the doc-block synthesis -/

theorem synthDoc_eq_caseA (fp : Line) :
    synthDoc fp [] =
      caseALines (module_name fp) (determine_layer fp) (determine_adrs fp) := by
  rfl

theorem synthDoc_eq_caseB (fp : Line) {doc : List Line} (hne : doc ≠ [])
    (h : hasArchitecture doc = false) :
    synthDoc fp doc =
      doc ++ caseBSuffix (module_name fp) (determine_layer fp) (determine_adrs fp) := by
  cases doc with
  | nil => exact absurd rfl hne
  | cons d ds => simp [synthDoc, h]

theorem synthDoc_eq_caseC_skip (fp : Line) {doc : List Line}
    (h : hasArchitecture doc = true)
    (hskip : determine_adrs fp = [] ∨ hasAdrsLine doc = true) :
    synthDoc fp doc = doc := by
  rcases hskip with h2 | h2 <;> simp [synthDoc, h, h2]

theorem synthDoc_eq_caseC_insert (fp : Line) {doc : List Line}
    (h : hasArchitecture doc = true)
    (hadrs : (determine_adrs fp).isEmpty = false)
    (hno : hasAdrsLine doc = false) :
    synthDoc fp doc =
      (let ai := doc.findIdx (fun l => containsSub l archHeading)
       let s := doc.drop (ai + 1)
       let a := advanceWhile condC1 s
       let b := advanceWhile (fun l => startsWithB l (lit "//! -")) (s.drop a)
       insertAt (ai + 1 + a + b) (adrsBullet (determine_adrs fp)) doc) := by
  simp [synthDoc, h, hadrs, hno]

theorem foldl_append_filter (p : Line × Line → Bool) :
    ∀ (t : List (Line × Line)) (acc : List Line),
      t.foldl (fun adrs pa => if p pa then adrs ++ [pa.2] else adrs) acc
        = acc ++ (t.filter p).map Prod.snd
  | [], acc => by simp
  | e :: t, acc => by
    rw [List.foldl_cons, List.filter_cons]
    by_cases hp : p e = true
    · rw [if_pos hp, if_pos hp, foldl_append_filter p t (acc ++ [e.2]),
        List.map_cons, List.append_assoc]
      rfl
    · rw [if_neg hp, if_neg hp, foldl_append_filter p t acc]

theorem hasArchitecture_append_right {doc suff : List Line}
    (h : hasArchitecture suff = true) : hasArchitecture (doc ++ suff) = true := by
  rw [hasArchitecture] at h ⊢
  rw [List.any_append, h, Bool.or_true]

theorem hasArchitecture_caseA (m layer : Line) (adrs : List Line) :
    hasArchitecture (caseALines m layer adrs) = true := by
  rw [hasArchitecture, List.any_eq_true]
  refine ⟨archHeading, ?_, by decide⟩
  rw [caseALines]
  simp

theorem hasArchitecture_caseB (m layer : Line) (adrs : List Line) :
    hasArchitecture (caseBSuffix m layer adrs) = true := by
  rw [hasArchitecture, List.any_eq_true]
  refine ⟨archHeading, ?_, by decide⟩
  rw [caseBSuffix]
  simp

theorem mem_insertAt {x a : Line} {i : Nat} {ls : List Line} (h : x ∈ ls) :
    x ∈ insertAt i a ls := by
  rw [insertAt]
  rw [← List.take_append_drop i ls, List.mem_append] at h
  rcases h with h | h
  · exact List.mem_append.2 (Or.inl (List.mem_append.2 (Or.inl h)))
  · exact List.mem_append.2 (Or.inr h)

theorem self_mem_insertAt (a : Line) (i : Nat) (ls : List Line) :
    a ∈ insertAt i a ls := by
  rw [insertAt]
  simp

theorem hasArchitecture_synthDoc (fp : Line) (doc : List Line) :
    hasArchitecture (synthDoc fp doc) = true := by
  by_cases h : hasArchitecture doc = true
  · by_cases hskip : (determine_adrs fp).isEmpty = false ∧ hasAdrsLine doc = false
    · rw [synthDoc_eq_caseC_insert fp h hskip.1 hskip.2]
      rw [hasArchitecture, List.any_eq_true] at h ⊢
      obtain ⟨l, hl, hc⟩ := h
      exact ⟨l, mem_insertAt hl, hc⟩
    · rw [synthDoc_eq_caseC_skip fp h ?_]
      · exact h
      · rcases Decidable.not_and_iff_or_not.1 hskip with h2 | h2
        · exact Or.inl (by
            rcases hadr : determine_adrs fp with _ | _
            · rfl
            · rw [hadr] at h2; exact absurd rfl h2)
        · exact Or.inr (by
            cases hline : hasAdrsLine doc with
            | true => rfl
            | false => exact absurd hline h2)
  · have hfalse : hasArchitecture doc = false := by
      cases hh : hasArchitecture doc with
      | false => rfl
      | true => exact absurd hh h
    cases doc with
    | nil => rw [synthDoc_eq_caseA]; exact hasArchitecture_caseA _ _ _
    | cons d ds =>
      rw [synthDoc_eq_caseB fp (by simp) hfalse]
      exact hasArchitecture_append_right (hasArchitecture_caseB _ _ _)

theorem synthDoc_ne_nil (fp : Line) (doc : List Line) : synthDoc fp doc ≠ [] := by
  intro h
  have := hasArchitecture_synthDoc fp doc
  rw [h] at this
  exact absurd this (by decide)

theorem processLines_eq (fp : Line) (lines : List Line) :
    processLines fp lines =
      licenseZoneOut lines ++ synthDoc fp (docZoneOf lines) ++ [[]] ++ bodyZone lines := by
  cases hd : synthDoc fp (docZoneOf lines) with
  | nil => exact absurd hd (synthDoc_ne_nil fp (docZoneOf lines))
  | cons x xs => simp [processLines, hd]

/-! ## Claim theorems -/

/-- C3: Body preservation.  For every input, the rewritten file is some
prefix followed by exactly the Body zone computed from the input, and
that Body zone is itself a contiguous, order-preserving, byte-identical
suffix of the input lines. -/
theorem C3_body_preservation (fp : Line) (lines : List Line) :
    (∃ pre, processLines fp lines = pre ++ bodyZone lines) ∧
      bodyZone lines <:+ lines := by
  constructor
  · refine ⟨licenseZoneOut lines ++ synthDoc fp (docZoneOf lines) ++ [[]], ?_⟩
    rw [processLines_eq, List.append_assoc, List.append_assoc]
  · rw [bodyZone]
    have h1 : restAfterLicense lines <:+ lines := by
      rw [restAfterLicense]
      split
      · exact List.drop_suffix _ _
      · exact List.suffix_refl _
    exact (List.dropWhile_suffix _).trans ((List.drop_suffix _ _).trans h1)

/-- C7: `determine_adrs` returns, in table order, the identifier of every
entry whose pattern occurs as a substring of the separator-normalized
path, with no early exit; duplicate identifiers are preserved, as the
concrete path matching both `ADR-036` rules shows.  The function is a
total Lean function, hence pure and total. -/
theorem C7_determine_adrs_correct :
    (∀ path : Line, determine_adrs path =
      (ADR_MAPPINGS.filter
        (fun pa => containsSub (replaceAll path (lit "\\") (lit "/")) pa.1)).map
        Prod.snd) ∧
    determine_adrs
        (lit "a\\orchestrator/core/src/infrastructure/nfs_gateway/storage/fsal/f.rs") =
      [lit "ADR-036: NFS Server Gateway Architecture",
       lit "ADR-036: NFS Server Gateway Architecture"] := by
  constructor
  · intro path
    show ADR_MAPPINGS.foldl
      (fun adrs pa =>
        if containsSub (replaceAll path (lit "\\") (lit "/")) pa.1 then adrs ++ [pa.2]
        else adrs) [] = _
    exact (foldl_append_filter
      (fun pa => containsSub (replaceAll path (lit "\\") (lit "/")) pa.1)
      ADR_MAPPINGS []).trans (List.nil_append _)
  · decide

/-- C10: every output of the per-file transformation contains a line
containing the literal Architecture heading: the heading is preserved
in Case C and synthesized in Cases A and B, so the output Doc zone is
never empty. -/
theorem C10_output_has_heading (fp : Line) (lines : List Line) :
    ∃ l ∈ processLines fp lines, containsSub l archHeading = true := by
  have h := hasArchitecture_synthDoc fp (docZoneOf lines)
  rw [hasArchitecture, List.any_eq_true] at h
  obtain ⟨l, hl, hc⟩ := h
  refine ⟨l, ?_, hc⟩
  rw [processLines_eq]
  simp only [List.mem_append]
  tauto

/-- C8: malformed-heading degradation.  If the Doc zone is non-empty but
none of its lines contains the recognized Architecture heading (for
example because the heading line is malformed), the synthesis behaves
exactly as Case B: the output is the license zone, then the unchanged
doc lines followed by a freshly appended Architecture section, a blank
line, and the body.  The embedding is a total function, so no input
raises an error. -/
theorem C8_malformed_heading_caseB (fp : Line) (lines : List Line)
    (hne : docZoneOf lines ≠ [])
    (hno : ∀ l ∈ docZoneOf lines, containsSub l archHeading = false) :
    processLines fp lines =
      licenseZoneOut lines ++
        (docZoneOf lines ++
          caseBSuffix (module_name fp) (determine_layer fp) (determine_adrs fp)) ++
        [[]] ++ bodyZone lines := by
  have harch : hasArchitecture (docZoneOf lines) = false := by
    rw [hasArchitecture, List.any_eq_false]
    intro l hl
    rw [hno l hl]
    exact Bool.false_ne_true
  rw [processLines_eq, synthDoc_eq_caseB fp hne harch]

/-- Witness for C8 at a concrete file whose doc zone has a malformed
heading line. -/
theorem C8_witness :
    processLines (lit "lib.rs") [lit "//! #Architecture (sic)", lit "fn f()"] =
      licenseZoneOut [lit "//! #Architecture (sic)", lit "fn f()"] ++
        (docZoneOf [lit "//! #Architecture (sic)", lit "fn f()"] ++
          caseBSuffix (module_name (lit "lib.rs")) (determine_layer (lit "lib.rs"))
            (determine_adrs (lit "lib.rs"))) ++
        [[]] ++ bodyZone [lit "//! #Architecture (sic)", lit "fn f()"] :=
  C8_malformed_heading_caseB (lit "lib.rs") [lit "//! #Architecture (sic)", lit "fn f()"]
    (by decide) (by decide)

/-- Modelled from the words of claim C6 (the scan the claim describes):
from the post-license cursor drop exactly one leading blank line, then
consume consecutive doc-prefixed-or-blank lines, and trim trailing
blank lines. -/
def docZoneSpecC6 (lines : List Line) : List Line :=
  let rest := restAfterLicense lines
  let rest2 := match rest with
    | [] => ([] : List Line)
    | l :: t => if isBlank l then t else l :: t
  stripTrailingBlanks
    (rest2.takeWhile (fun l => startsWithB l (lit "//!") || isBlank l))

/-- C6 counterexample: on an input whose post-license cursor faces two
consecutive blank lines before the first doc-prefixed line, the code
drops both of them, not only a single one as the claim states: the
claim-described scan yields a Doc zone that still holds one blank line,
the code's scan yields one without it. -/
theorem C6_counterexample :
    docZoneOf [lit "// Copyright (c) 100monkeys", [], [], [], lit "//! hi", lit "fn g()"]
        = [lit "//! hi"] ∧
      docZoneSpecC6 [lit "// Copyright (c) 100monkeys", [], [], [], lit "//! hi", lit "fn g()"]
        = [[], lit "//! hi"] ∧
      docZoneOf [lit "// Copyright (c) 100monkeys", [], [], [], lit "//! hi", lit "fn g()"]
        ≠ docZoneSpecC6 [lit "// Copyright (c) 100monkeys", [], [], [], lit "//! hi", lit "fn g()"] := by
  decide

/-- C6 amended: the doc scan drops every leading blank line (not just a
single one) while `doc_lines` is still empty; the collected doc lines
are unaffected and the cursor advances past all of them. -/
theorem C6_amended (blanks rest' : List Line) (hb : ∀ b ∈ blanks, isBlank b = true) :
    docScanAux (blanks ++ rest') false =
      ((docScanAux rest' false).1, blanks.length + (docScanAux rest' false).2) := by
  induction blanks with
  | nil => simp
  | cons b bs ih =>
    have hbb : isBlank b = true := hb b (by simp)
    have ihh := ih (fun x hx => hb x (List.mem_cons_of_mem _ hx))
    rw [List.cons_append, docScanAux, hbb]
    simp [ihh]
    omega

/-- Witness for C6 amended: two blank lines before the doc run are both
skipped. -/
theorem C6_amended_witness :
    docScanAux ([[], lit " "] ++ [lit "//! x", lit "fn h()"]) false =
      ((docScanAux [lit "//! x", lit "fn h()"] false).1,
        2 + (docScanAux [lit "//! x", lit "fn h()"] false).2) :=
  C6_amended [[], lit " "] [lit "//! x", lit "fn h()"] (by decide)

/-! ## C9: the module display name -/

/-- Independent formulation: delete every occurrence of `.rs`,
recognized by comparing `take`/`drop` slices. -/
def removeRsAux : Nat → Line → Line
  | 0, l => l
  | _ + 1, [] => []
  | fuel + 1, c :: cs =>
    if c = '.' ∧ cs.take 2 = 'r' :: 's' :: [] then removeRsAux fuel (cs.drop 2)
    else c :: removeRsAux fuel cs

/-- Delete every occurrence of `.rs`. -/
def removeRs (l : Line) : Line := removeRsAux l.length l

/-- Replace every underscore by a space. -/
def underscoresToSpaces (l : Line) : Line :=
  l.map (fun c => if c = '_' then ' ' else c)

/-- Modelled from the words of claim C9: strip only a trailing `.rs`
extension, then replace underscores and title-case. -/
def stripEndRs (l : Line) : Line :=
  if l.reverse.take 3 = 's' :: 'r' :: '.' :: [] then l.take (l.length - 3) else l

/-- The module name as claim C9 describes it (only the trailing
extension removed). -/
def claimModuleName (fp : Line) : Line :=
  pyTitle (underscoresToSpaces (stripEndRs (basename fp)))

theorem startsWith_rs_iff {c : Char} {cs : Line} :
    startsWithB (c :: cs) ('.' :: 'r' :: 's' :: []) = true ↔
      c = '.' ∧ cs.take 2 = 'r' :: 's' :: [] := by
  rw [startsWithB_iff, List.cons_prefix_cons, List.prefix_iff_eq_take, eq_comm]
  simp [and_congr_right_iff, eq_comm]

theorem replace_rs_eq : ∀ (fuel : Nat) (l : Line),
    replaceAllAux fuel l ('.' :: 'r' :: 's' :: []) [] = removeRsAux fuel l
  | 0, l => rfl
  | _ + 1, [] => rfl
  | fuel + 1, c :: cs => by
    rw [replaceAllAux, removeRsAux]
    by_cases h : c = '.' ∧ cs.take 2 = 'r' :: 's' :: []
    · rw [if_pos h, if_pos (by simp [startsWith_rs_iff.2 h])]
      rw [List.nil_append]
      exact replace_rs_eq fuel (cs.drop 2)
    · rw [if_neg h, if_neg ?_]
      · rw [replace_rs_eq fuel cs]
      · intro hc
        rw [Bool.and_eq_true] at hc
        exact h (startsWith_rs_iff.1 hc.1)

theorem replace_underscore_eq : ∀ (fuel : Nat) (l : Line), l.length ≤ fuel →
    replaceAllAux fuel l ('_' :: []) (' ' :: []) = underscoresToSpaces l
  | 0, [], _ => rfl
  | 0, _ :: _, h => by simp at h
  | _ + 1, [], _ => rfl
  | fuel + 1, c :: cs, h => by
    have hlen : cs.length ≤ fuel := by
      rw [List.length_cons] at h
      omega
    rw [replaceAllAux, underscoresToSpaces]
    simp only [List.map_cons]
    by_cases hc : c = '_'
    · rw [if_pos (by simp [startsWithB, hc, startsWith_nil]), if_pos hc]
      show ' ' :: replaceAllAux fuel cs ('_' :: []) (' ' :: []) = _
      rw [replace_underscore_eq fuel cs hlen]
      rfl
    · rw [if_neg ?_, if_neg hc]
      · show c :: replaceAllAux fuel cs ('_' :: []) (' ' :: []) = _
        rw [replace_underscore_eq fuel cs hlen]
        rfl
      · intro hcond
        rw [Bool.and_eq_true] at hcond
        have h1 := hcond.1
        rw [startsWithB, Bool.and_eq_true, beq_iff_eq] at h1
        exact hc h1.1

/-- C9 counterexample: for a file name whose stem itself contains the
extension string, the script's `replace('.rs', '')` removes every
occurrence, not only the trailing extension as the claim states. -/
theorem C9_counterexample :
    module_name (lit "a.rs_b.rs") = lit "A B" ∧
      claimModuleName (lit "a.rs_b.rs") = lit "A.Rs B" ∧
      module_name (lit "a.rs_b.rs") ≠ claimModuleName (lit "a.rs_b.rs") := by
  decide

/-- C9 amended: the module display name equals the file name with every
occurrence of `.rs` deleted, underscores replaced by spaces, and the
result title-cased. -/
theorem C9_amended (fp : Line) :
    module_name fp = pyTitle (underscoresToSpaces (removeRs (basename fp))) := by
  rw [module_name]
  have h1 : replaceAll (basename fp) (lit ".rs") [] = removeRs (basename fp) :=
    replace_rs_eq _ _
  rw [h1]
  congr 1
  exact replace_underscore_eq _ _ (le_refl _)

/-! ## C4: license detection -/

/-- Whether the first line of the file is a license-marker line. -/
def firstIsLicense : List Line → Bool
  | [] => false
  | l :: _ => isLicenseLine l

theorem licenseScanAux_cp_true : ∀ (rest : List Line) (idx : Nat),
    (licenseScanAux rest idx true).2 = true
  | [], _ => rfl
  | l :: rest, idx => by
    rw [licenseScanAux]
    by_cases h1 : isLicenseLine l = true
    · rw [if_pos h1]
      exact licenseScanAux_cp_true rest (idx + 1)
    · rw [if_neg h1]
      by_cases h2 : (isBlank l && true && decide (idx < 2)) = true
      · rw [if_pos h2]
        exact licenseScanAux_cp_true rest (idx + 1)
      · rw [if_neg h2]

theorem licenseScan_cp_eq (lines : List Line) :
    (licenseScan lines).2 = firstIsLicense lines := by
  cases lines with
  | nil => rfl
  | cons l rest =>
    rw [licenseScan, licenseScanAux, firstIsLicense]
    by_cases h1 : isLicenseLine l = true
    · rw [if_pos h1, h1]
      exact licenseScanAux_cp_true rest 1
    · rw [if_neg h1, if_neg (by simp)]
      cases hh : isLicenseLine l with
      | false => rfl
      | true => exact absurd hh h1

theorem licenseScanAux_isPrefix : ∀ (rest : List Line) (idx : Nat) (cp : Bool),
    (licenseScanAux rest idx cp).1 <+: rest
  | [], _, _ => List.nil_prefix
  | l :: rest, idx, cp => by
    rw [licenseScanAux]
    by_cases h1 : isLicenseLine l = true
    · rw [if_pos h1]
      exact List.cons_prefix_cons.2 ⟨rfl, licenseScanAux_isPrefix rest (idx + 1) true⟩
    · rw [if_neg h1]
      by_cases h2 : (isBlank l && cp && decide (idx < 2)) = true
      · rw [if_pos h2]
        exact List.cons_prefix_cons.2 ⟨rfl, licenseScanAux_isPrefix rest (idx + 1) cp⟩
      · rw [if_neg h2]
        exact List.nil_prefix

/-- C4 counterexample: the first line is a comment line (it starts with
`//`) and contains the license-identifier marker, so the claim calls
this file licensed; yet the scan, which only tests line prefixes,
reports no copyright and the output gets a fresh header prepended in
front of it. -/
theorem C4_counterexample :
    containsSub (lit "// note SPDX-License-Identifier: AGPL-3.0")
        (lit "SPDX-License-Identifier") = true ∧
      startsWithB (lit "// note SPDX-License-Identifier: AGPL-3.0") (lit "//") = true ∧
      (licenseScan [lit "// note SPDX-License-Identifier: AGPL-3.0", lit "fn m()"]).2
        = false ∧
      List.take 2 (processLines (lit "m.rs")
          [lit "// note SPDX-License-Identifier: AGPL-3.0", lit "fn m()"])
        = [lit "// Copyright (c) 2026 100monkeys.ai",
           lit "// SPDX-License-Identifier: AGPL-3.0"] := by
  decide

/-- C4 amended: detection is by line prefix at the very start of the
file: the scan reports a license iff the first line starts with the
copyright marker or the SPDX marker (no further validation), and in
that case no second header is prepended — the output starts with the
consumed license zone, a non-empty exact prefix of the input. -/
theorem C4_amended (fp : Line) (lines : List Line) :
    (licenseScan lines).2 = firstIsLicense lines ∧
      (firstIsLicense lines = true →
        processLines fp lines =
            (licenseScan lines).1 ++ synthDoc fp (docZoneOf lines) ++ [[]] ++
              bodyZone lines ∧
          (licenseScan lines).1 <+: lines ∧ (licenseScan lines).1 ≠ []) := by
  refine ⟨licenseScan_cp_eq lines,
    fun hf => ⟨?_, licenseScanAux_isPrefix lines 0 false, ?_⟩⟩
  · rw [processLines_eq, licenseZoneOut,
      if_pos (by rw [licenseScan_cp_eq]; exact hf)]
  · cases lines with
    | nil => simp [firstIsLicense] at hf
    | cons l rest =>
      rw [firstIsLicense] at hf
      rw [licenseScan, licenseScanAux, if_pos hf]
      simp

/-- Witness for C4 amended at a concrete licensed file. -/
theorem C4_witness :
    processLines (lit "w.rs") [lit "// SPDX-License-Identifier: MIT", lit "fn w()"] =
        (licenseScan [lit "// SPDX-License-Identifier: MIT", lit "fn w()"]).1 ++
          synthDoc (lit "w.rs")
            (docZoneOf [lit "// SPDX-License-Identifier: MIT", lit "fn w()"]) ++
          [[]] ++ bodyZone [lit "// SPDX-License-Identifier: MIT", lit "fn w()"] ∧
      (licenseScan [lit "// SPDX-License-Identifier: MIT", lit "fn w()"]).1
        ≠ [] :=
  ⟨((C4_amended (lit "w.rs") _).2 (by decide)).1,
    ((C4_amended (lit "w.rs") _).2 (by decide)).2.2⟩

/-! ## C2: the Case C insertion point -/

/-- Every line splits as leading whitespace, its strip, and trailing
whitespace. -/
theorem pyStrip_decomp (l : Line) : ∃ ws1 ws2, l = ws1 ++ pyStrip l ++ ws2 ∧
    (∀ x ∈ ws1, isPySpace x = true) ∧ (∀ x ∈ ws2, isPySpace x = true) := by
  refine ⟨l.takeWhile isPySpace,
    ((l.dropWhile isPySpace).reverse.takeWhile isPySpace).reverse, ?_,
    fun x hx => List.mem_takeWhile_imp hx,
    fun x hx => List.mem_takeWhile_imp (List.mem_reverse.1 hx)⟩
  have h1 : l.dropWhile isPySpace =
      pyStrip l ++ ((l.dropWhile isPySpace).reverse.takeWhile isPySpace).reverse := by
    rw [pyStrip]
    have h2 := congrArg List.reverse
      (List.takeWhile_append_dropWhile (p := isPySpace)
        (l := (l.dropWhile isPySpace).reverse))
    rw [List.reverse_append, List.reverse_reverse] at h2
    exact h2.symm
  conv_lhs => rw [← List.takeWhile_append_dropWhile (p := isPySpace) (l := l), h1]
  rw [List.append_assoc]

/-- A bullet line does not strip to the bare `//!`. -/
theorem bullet_strip_ne {l : Line} (h : startsWithB l (lit "//! -") = true) :
    (pyStrip l == lit "//!") = false := by
  cases heq : (pyStrip l == lit "//!") with
  | false => rfl
  | true =>
    rw [beq_iff_eq] at heq
    obtain ⟨t, ht⟩ := (startsWithB_iff _ _).1 h
    obtain ⟨ws1, ws2, hdec, hws1, hws2⟩ := pyStrip_decomp l
    have hl : l = '/' :: '/' :: '!' :: ' ' :: '-' :: t := ht.symm
    have hws1nil : ws1 = [] := by
      cases hw : ws1 with
      | nil => rfl
      | cons w ws =>
        have hsp := hws1 w (by rw [hw]; exact List.mem_cons_self _ _)
        have hcomb : w :: (ws ++ (pyStrip l ++ ws2)) =
            '/' :: '/' :: '!' :: ' ' :: '-' :: t := by
          rw [← List.cons_append, ← hw, ← List.append_assoc, ← hdec]
          exact hl
        injection hcomb with hw1 _
        rw [hw1] at hsp
        exact absurd hsp (by decide)
    rw [hws1nil, List.nil_append, heq, hl] at hdec
    have h2 : '/' :: '/' :: '!' :: ' ' :: '-' :: t = '/' :: '/' :: '!' :: ws2 := hdec
    injection h2 with _ h2
    injection h2 with _ h2
    injection h2 with _ h2
    have hmem2 : '-' ∈ ws2 := by rw [← h2]; simp
    exact absurd (hws2 '-' hmem2) (by decide)

/-- A bullet line does not start with `//!-`. -/
theorem bullet_not_dashdash {l : Line} (h : startsWithB l (lit "//! -") = true) :
    startsWithB l (lit "//!-") = false := by
  cases h2 : startsWithB l (lit "//!-") with
  | false => rfl
  | true =>
    rcases startsWith_total l _ _ h h2 with h3 | h3 <;> exact absurd h3 (by decide)

/-- On a line with no `Related ADRs` substring, the first
insertion-loop condition reduces to the bullet test. -/
theorem condC1_eq_bullet {l : Line} (hno : containsSub l relatedADRs = false) :
    condC1 l = startsWithB l (lit "//! -") := by
  rw [condC1, hno]
  cases hb : startsWithB l (lit "//! -") with
  | false => simp
  | true => rw [bullet_strip_ne hb, bullet_not_dashdash hb]; simp

theorem advanceWhile_congr {p q : Line → Bool} : ∀ {s : List Line},
    (∀ l ∈ s, p l = q l) → advanceWhile p s = advanceWhile q s
  | [], _ => rfl
  | l :: rest, h => by
    rw [advanceWhile, advanceWhile, h l (List.mem_cons_self _ _),
      advanceWhile_congr (fun x hx => h x (List.mem_cons_of_mem _ hx))]

theorem advanceWhile_drop_self (p : Line → Bool) : ∀ (s : List Line),
    advanceWhile p (s.drop (advanceWhile p s)) = 0
  | [] => rfl
  | l :: rest => by
    rw [advanceWhile]
    by_cases h : p l = true
    · rw [if_pos h]
      show advanceWhile p (List.drop (advanceWhile p rest + 1) (l :: rest)) = 0
      rw [List.drop_succ_cons]
      exact advanceWhile_drop_self p rest
    · rw [if_neg h]
      show advanceWhile p (List.drop 0 (l :: rest)) = 0
      rw [List.drop_zero, advanceWhile, if_neg h]

/-- C2 counterexample: Doc zone with the heading, a blank doc line, and
one existing bullet; the path matches one ADR rule.  The claim places
the new bullet after the existing bullet run; the code inserts it
directly after the heading, BETWEEN the heading and the existing
bullet. -/
theorem C2_counterexample :
    processLines (lit "storage/fsal/x.rs")
        [lit "//! # Architecture", lit "//!", lit "//! - **Layer:** Core System",
         lit "fn main2()"] =
      [lit "// Copyright (c) 2026 100monkeys.ai",
       lit "// SPDX-License-Identifier: AGPL-3.0",
       [],
       lit "//! # Architecture",
       lit "//! - **Related ADRs:** ADR-036: NFS Server Gateway Architecture",
       lit "//!",
       lit "//! - **Layer:** Core System",
       [],
       lit "fn main2()"] ∧
      processLines (lit "storage/fsal/x.rs")
        [lit "//! # Architecture", lit "//!", lit "//! - **Layer:** Core System",
         lit "fn main2()"] ≠
      [lit "// Copyright (c) 2026 100monkeys.ai",
       lit "// SPDX-License-Identifier: AGPL-3.0",
       [],
       lit "//! # Architecture",
       lit "//!",
       lit "//! - **Layer:** Core System",
       lit "//! - **Related ADRs:** ADR-036: NFS Server Gateway Architecture",
       [],
       lit "fn main2()"] := by
  decide

/-- C2 amended: when the Doc zone has the heading, no existing
references line, and the ReferenceSet is non-empty, the bullet is
inserted immediately after the maximal contiguous run of bullet lines
starting DIRECTLY after the heading line; when the line after the
heading is not a bullet (e.g. the customary blank `//!`), that run is
empty and the bullet lands immediately after the heading, before the
existing bullets. -/
theorem C2_amended (fp : Line) (lines : List Line)
    (h : hasArchitecture (docZoneOf lines) = true)
    (hadrs : (determine_adrs fp).isEmpty = false)
    (hno : hasAdrsLine (docZoneOf lines) = false) :
    processLines fp lines =
      licenseZoneOut lines ++
        insertAt
          ((docZoneOf lines).findIdx (fun l => containsSub l archHeading) + 1 +
            advanceWhile (fun l => startsWithB l (lit "//! -"))
              ((docZoneOf lines).drop
                ((docZoneOf lines).findIdx (fun l => containsSub l archHeading) + 1)))
          (adrsBullet (determine_adrs fp)) (docZoneOf lines) ++
        [[]] ++ bodyZone lines := by
  have hall : ∀ l ∈ docZoneOf lines, containsSub l relatedADRs = false := by
    rw [hasAdrsLine, List.any_eq_false] at hno
    intro l hl
    cases hc : containsSub l relatedADRs with
    | false => rfl
    | true => exact absurd hc (hno l hl)
  have hs : ∀ l ∈ (docZoneOf lines).drop
      ((docZoneOf lines).findIdx (fun l => containsSub l archHeading) + 1),
      containsSub l relatedADRs = false :=
    fun l hl => hall l ((List.drop_sublist _ _).subset hl)
  have hcong : advanceWhile condC1
      ((docZoneOf lines).drop
        ((docZoneOf lines).findIdx (fun l => containsSub l archHeading) + 1)) =
      advanceWhile (fun l => startsWithB l (lit "//! -"))
      ((docZoneOf lines).drop
        ((docZoneOf lines).findIdx (fun l => containsSub l archHeading) + 1)) :=
    advanceWhile_congr (fun l hl => condC1_eq_bullet (hs l hl))
  rw [processLines_eq, synthDoc_eq_caseC_insert fp h hadrs hno]
  simp only [hcong, advanceWhile_drop_self, Nat.add_zero]

/-- Witness for C2 amended at a concrete Doc zone whose bullet run
starts directly after the heading. -/
theorem C2_amended_witness :
    processLines (lit "cortex/src/application/cortex_pruner.rs")
        [lit "//! # Architecture", lit "//! - **Layer:** Learning & Memory Layer",
         lit "fn p()"] =
      licenseZoneOut
          [lit "//! # Architecture", lit "//! - **Layer:** Learning & Memory Layer",
           lit "fn p()"] ++
        insertAt
          ((docZoneOf [lit "//! # Architecture",
              lit "//! - **Layer:** Learning & Memory Layer",
              lit "fn p()"]).findIdx (fun l => containsSub l archHeading) + 1 +
            advanceWhile (fun l => startsWithB l (lit "//! -"))
              ((docZoneOf [lit "//! # Architecture",
                  lit "//! - **Layer:** Learning & Memory Layer",
                  lit "fn p()"]).drop
                ((docZoneOf [lit "//! # Architecture",
                    lit "//! - **Layer:** Learning & Memory Layer",
                    lit "fn p()"]).findIdx (fun l => containsSub l archHeading) + 1)))
          (adrsBullet (determine_adrs (lit "cortex/src/application/cortex_pruner.rs")))
          (docZoneOf [lit "//! # Architecture",
            lit "//! - **Layer:** Learning & Memory Layer", lit "fn p()"]) ++
        [[]] ++
        bodyZone [lit "//! # Architecture",
          lit "//! - **Layer:** Learning & Memory Layer", lit "fn p()"] :=
  C2_amended (lit "cortex/src/application/cortex_pruner.rs")
    [lit "//! # Architecture", lit "//! - **Layer:** Learning & Memory Layer",
     lit "fn p()"] (by decide) (by decide) (by decide)

/-! ## Generic helper lemmas for the scans -/

theorem drop_len_plus : ∀ (a : List Line) (x : List Line) (n : Nat),
    (a ++ x).drop (a.length + n) = x.drop n
  | [], _, _ => by simp
  | l :: a, x, n => by
    rw [List.cons_append, List.length_cons,
      show a.length + 1 + n = (a.length + n) + 1 by omega, List.drop_succ_cons]
    exact drop_len_plus a x n

theorem head_dropWhile_false (p : Line → Bool) : ∀ (y : List Line) (l : Line),
    (y.dropWhile p).head? = some l → p l = false
  | [], l => by intro h; cases h
  | x :: y, l => by
    intro h
    by_cases hx : p x = true
    · rw [List.dropWhile_cons_of_pos hx] at h
      exact head_dropWhile_false p y l h
    · rw [List.dropWhile_cons_of_neg hx] at h
      rw [List.head?_cons] at h
      injection h with h
      rw [← h]
      cases hpx : p x with
      | false => rfl
      | true => exact absurd hpx hx

theorem stripTrailing_isPrefix (x : List Line) : stripTrailingBlanks x <+: x := by
  rw [stripTrailingBlanks]
  rw [← List.reverse_reverse x]
  rw [List.reverse_prefix]
  rw [List.reverse_reverse]
  exact List.dropWhile_suffix _

theorem stripTrailing_mem {l : Line} {x : List Line}
    (h : l ∈ stripTrailingBlanks x) : l ∈ x :=
  (stripTrailing_isPrefix x).sublist.subset h

theorem stripTrailing_head {x : List Line} {l : Line}
    (h : (stripTrailingBlanks x).head? = some l) : x.head? = some l := by
  obtain ⟨u, hu⟩ := stripTrailing_isPrefix x
  cases hs : stripTrailingBlanks x with
  | nil => rw [hs] at h; cases h
  | cons d ds =>
    rw [hs] at h hu
    rw [List.head?_cons] at h
    rw [← hu, List.cons_append, List.head?_cons]
    exact h

theorem stripTrailing_last {x : List Line} {l : Line}
    (h : (stripTrailingBlanks x).getLast? = some l) : isBlank l = false := by
  rw [← List.head?_reverse, stripTrailingBlanks, List.reverse_reverse] at h
  exact head_dropWhile_false isBlank _ l h

theorem stripTrailing_append_blank {ds : List Line}
    (h : ∀ l, ds.getLast? = some l → isBlank l = false) :
    stripTrailingBlanks (ds ++ [[]]) = ds := by
  rw [stripTrailingBlanks, List.reverse_append]
  show (List.dropWhile isBlank ([] :: ds.reverse)).reverse = ds
  rw [List.dropWhile_cons_of_pos (by decide)]
  cases hds : ds.reverse with
  | nil =>
    have : ds = [] := by
      rw [← List.reverse_reverse ds, hds]
      rfl
    rw [this]
    rfl
  | cons y ys =>
    have hy : ds.getLast? = some y := by
      rw [← List.head?_reverse, hds, List.head?_cons]
    rw [List.dropWhile_cons_of_neg (by rw [h y hy]; exact Bool.false_ne_true), ← hds,
      List.reverse_reverse]

theorem mem_insertAt_iff {x a : Line} {i : Nat} {ls : List Line}
    (h : x ∈ insertAt i a ls) : x = a ∨ x ∈ ls := by
  rw [insertAt, List.append_assoc, List.mem_append] at h
  rcases h with h | h
  · exact Or.inr ((List.take_sublist _ _).subset h)
  · rw [List.mem_append] at h
    rcases h with h | h
    · rw [List.mem_singleton] at h
      exact Or.inl h
    · exact Or.inr ((List.drop_sublist _ _).subset h)

theorem insertAt_succ_cons (k : Nat) (a d : Line) (ds : List Line) :
    insertAt (k + 1) a (d :: ds) = d :: insertAt k a ds := by
  rw [insertAt, insertAt, List.take_succ_cons, List.drop_succ_cons, List.cons_append,
    List.cons_append]

theorem insertAt_getLast (b : Line) (i : Nat) (ls : List Line) :
    (insertAt i b ls).getLast? = some b ∨ (insertAt i b ls).getLast? = ls.getLast? := by
  by_cases hlen : ls.length ≤ i
  · left
    rw [insertAt, List.take_of_length_le hlen, List.drop_eq_nil_of_le hlen,
      List.append_nil]
    exact List.getLast?_concat _
  · right
    have hne : ls.drop i ≠ [] := by
      rw [Ne, List.drop_eq_nil_iff]
      omega
    rw [insertAt, List.append_assoc, List.getLast?_append_of_ne_nil _ (by
      intro hc
      rw [List.append_eq_nil] at hc
      exact hne hc.2)]
    rw [List.getLast?_append_of_ne_nil _ hne]
    conv_rhs => rw [← List.take_append_drop i ls,
      List.getLast?_append_of_ne_nil _ hne]

/-! ## Structural lemmas about the doc scan -/

theorem docScanAux_mem_cond : ∀ (rest : List Line) (ne : Bool) (l : Line),
    l ∈ (docScanAux rest ne).1 → (startsWithB l (lit "//!") || isBlank l) = true
  | [], _, l => by intro h; cases h
  | x :: rest, ne, l => by
    intro h
    rw [docScanAux] at h
    by_cases hc : (startsWithB x (lit "//!") || isBlank x) = true
    · rw [if_pos hc] at h
      by_cases hskip : (isBlank x && !ne) = true
      · rw [if_pos hskip] at h
        exact docScanAux_mem_cond rest ne l h
      · rw [if_neg hskip] at h
        rcases List.mem_cons.1 h with h | h
        · rw [h]
          exact hc
        · exact docScanAux_mem_cond rest true l h
    · rw [if_neg hc] at h
      cases h

theorem docScanAux_head : ∀ (rest : List Line) (l : Line),
    ((docScanAux rest false).1).head? = some l → startsWithB l (lit "//!") = true
  | [], l => by intro h; cases h
  | x :: rest, l => by
    intro h
    rw [docScanAux] at h
    by_cases hc : (startsWithB x (lit "//!") || isBlank x) = true
    · rw [if_pos hc] at h
      by_cases hb : isBlank x = true
      · rw [if_pos (by rw [hb]; rfl)] at h
        exact docScanAux_head rest l h
      · rw [if_neg (by simp [hb])] at h
        rw [List.head?_cons] at h
        injection h with h
        rw [← h]
        cases hsx : startsWithB x (lit "//!") with
        | true => rfl
        | false => rw [hsx, Bool.false_or] at hc; exact absurd hc hb
    · rw [if_neg hc] at h
      cases h

theorem docScanAux_stop : ∀ (rest : List Line) (ne : Bool) (l : Line),
    (rest.drop (docScanAux rest ne).2).head? = some l →
    (startsWithB l (lit "//!") || isBlank l) = false
  | [], _, l => by intro h; rw [List.drop_nil] at h; cases h
  | x :: rest, ne, l => by
    intro h
    rw [docScanAux] at h
    by_cases hc : (startsWithB x (lit "//!") || isBlank x) = true
    · rw [if_pos hc] at h
      by_cases hskip : (isBlank x && !ne) = true
      · rw [if_pos hskip] at h
        rw [List.drop_succ_cons] at h
        exact docScanAux_stop rest ne l h
      · rw [if_neg hskip] at h
        rw [List.drop_succ_cons] at h
        exact docScanAux_stop rest true l h
    · rw [if_neg hc] at h
      rw [List.drop_zero, List.head?_cons] at h
      injection h with h
      rw [← h]
      cases hcc : (startsWithB x (lit "//!") || isBlank x) with
      | false => rfl
      | true => exact absurd hcc hc

theorem docScanAux_start {d : Line} (rest : List Line)
    (hd : startsWithB d (lit "//!") = true) :
    docScanAux (d :: rest) false =
      (d :: (docScanAux rest true).1, (docScanAux rest true).2 + 1) := by
  rw [docScanAux, if_pos (by rw [hd]; rfl),
    if_neg (by rw [not_blank_of_docStart hd]; simp)]

theorem docScanAux_stop_eq {x : Line} (rest : List Line) (ne : Bool)
    (hx : (startsWithB x (lit "//!") || isBlank x) = false) :
    docScanAux (x :: rest) ne = ([], 0) := by
  rw [docScanAux, if_neg (by rw [hx]; exact Bool.false_ne_true)]

theorem docScanAux_all (tail : List Line) : ∀ (ds : List Line),
    (∀ l ∈ ds, (startsWithB l (lit "//!") || isBlank l) = true) →
    docScanAux (ds ++ tail) true =
      (ds ++ (docScanAux tail true).1, ds.length + (docScanAux tail true).2)
  | [], _ => by simp
  | l :: ds, h => by
    have hl := h l (List.mem_cons_self _ _)
    rw [List.cons_append, docScanAux, if_pos hl, if_neg (by simp),
      docScanAux_all tail ds (fun x hx => h x (List.mem_cons_of_mem _ hx))]
    rw [List.cons_append, List.length_cons]
    refine Prod.ext rfl ?_
    show ds.length + (docScanAux tail true).2 + 1 = ds.length + 1 + (docScanAux tail true).2
    omega

/-! ## Structural lemmas about the license scan -/

theorem licenseScanAux_stop {l : Line} (rest : List Line) (idx : Nat) (cp : Bool)
    (h1 : isLicenseLine l = false) (h2 : isBlank l = false) :
    licenseScanAux (l :: rest) idx cp = ([], cp) := by
  rw [licenseScanAux, if_neg (by rw [h1]; exact Bool.false_ne_true),
    if_neg (by rw [h2]; simp)]

theorem licenseScanAux_self : ∀ (rest : List Line) (idx : Nat) (cp : Bool),
    licenseScanAux ((licenseScanAux rest idx cp).1) idx cp = licenseScanAux rest idx cp
  | [], _, _ => rfl
  | l :: rest, idx, cp => by
    by_cases h1 : isLicenseLine l = true
    · rw [licenseScanAux, if_pos h1]
      show licenseScanAux (l :: (licenseScanAux rest (idx + 1) true).1) idx cp = _
      rw [licenseScanAux, if_pos h1]
      rw [licenseScanAux_self rest (idx + 1) true]
    · rw [licenseScanAux, if_neg h1]
      by_cases h2 : (isBlank l && cp && decide (idx < 2)) = true
      · rw [if_pos h2]
        show licenseScanAux (l :: (licenseScanAux rest (idx + 1) cp).1) idx cp = _
        rw [licenseScanAux, if_neg h1, if_pos h2]
        rw [licenseScanAux_self rest (idx + 1) cp]
      · rw [if_neg h2]
        rfl

theorem licenseScanAux_append (tail : List Line) : ∀ (pre : List Line) (idx : Nat) (cp : Bool),
    (licenseScanAux pre idx cp).1 = pre →
    licenseScanAux (pre ++ tail) idx cp =
      (pre ++ (licenseScanAux tail (idx + pre.length) ((licenseScanAux pre idx cp).2)).1,
        (licenseScanAux tail (idx + pre.length) ((licenseScanAux pre idx cp).2)).2)
  | [], idx, cp, _ => by simp [licenseScanAux]
  | l :: pre, idx, cp, h => by
    by_cases h1 : isLicenseLine l = true
    · rw [licenseScanAux, if_pos h1] at h ⊢
      have hpre : (licenseScanAux pre (idx + 1) true).1 = pre := by
        have := h
        injection this with _ h2
      rw [List.cons_append, licenseScanAux, if_pos h1,
        licenseScanAux_append tail pre (idx + 1) true hpre]
      rw [List.length_cons,
        show idx + (pre.length + 1) = idx + 1 + pre.length by omega]
      rfl
    · rw [licenseScanAux, if_neg h1] at h ⊢
      by_cases h2 : (isBlank l && cp && decide (idx < 2)) = true
      · rw [if_pos h2] at h ⊢
        have hpre : (licenseScanAux pre (idx + 1) cp).1 = pre := by
          have := h
          injection this with _ h3
        rw [List.cons_append, licenseScanAux, if_neg h1, if_pos h2,
          licenseScanAux_append tail pre (idx + 1) cp hpre]
        rw [List.length_cons,
          show idx + (pre.length + 1) = idx + 1 + pre.length by omega]
        rfl
      · rw [if_neg h2] at h
        exact absurd h.symm (List.cons_ne_nil _ _)

theorem licenseScanAux_nil_of_cp_false (lines : List Line)
    (h : (licenseScan lines).2 = false) : (licenseScan lines).1 = [] := by
  cases lines with
  | nil => rfl
  | cons l rest =>
    rw [licenseScan] at h ⊢
    by_cases h1 : isLicenseLine l = true
    · rw [licenseScanAux, if_pos h1] at h
      have := licenseScanAux_cp_true rest 1
      rw [show (0 : Nat) + 1 = 1 from rfl] at h
      rw [this] at h
      cases h
    · rw [licenseScanAux, if_neg h1, if_neg (by simp)]

/-! ## Properties of the synthesized doc zone -/

theorem adrsBullet_contains (adrs : List Line) :
    containsSub (adrsBullet adrs) relatedADRs = true :=
  contains_append_left _ (by decide)

theorem adrsBullet_starts (adrs : List Line) :
    startsWithB (adrsBullet adrs) (lit "//!") = true :=
  startsWith_append_left _ (by decide)

theorem caseA_all_cond (m layer : Line) (adrs : List Line) :
    ∀ l ∈ caseALines m layer adrs, (startsWithB l (lit "//!") || isBlank l) = true := by
  intro l hl
  rw [caseALines, List.mem_append] at hl
  rcases hl with hl | hl
  · simp only [List.mem_cons, List.not_mem_nil, or_false] at hl
    rcases hl with rfl | rfl | rfl | rfl | rfl | rfl | rfl | rfl
    · rw [startsWith_append_left _ (by decide : startsWithB (lit "//! ") (lit "//!") = true)]
      rfl
    · decide
    · rw [startsWith_append_left _ (startsWith_append_left _
        (by decide : startsWithB (lit "//! Provides ") (lit "//!") = true))]
      rfl
    · decide
    · decide
    · decide
    · rw [startsWith_append_left _
        (by decide : startsWithB (lit "//! - **Layer:** ") (lit "//!") = true)]
      rfl
    · rw [startsWith_append_left _
        (by decide : startsWithB (lit "//! - **Purpose:** Implements ") (lit "//!") = true)]
      rfl
  · by_cases he : adrs.isEmpty = true
    · rw [if_pos he] at hl
      cases hl
    · rw [if_neg he, List.mem_singleton] at hl
      rw [hl, adrsBullet_starts]
      rfl

theorem caseB_all_cond (m layer : Line) (adrs : List Line) :
    ∀ l ∈ caseBSuffix m layer adrs, (startsWithB l (lit "//!") || isBlank l) = true := by
  intro l hl
  rw [caseBSuffix, List.mem_append] at hl
  rcases hl with hl | hl
  · simp only [List.mem_cons, List.not_mem_nil, or_false] at hl
    rcases hl with rfl | rfl | rfl | rfl | rfl
    · decide
    · decide
    · decide
    · rw [startsWith_append_left _
        (by decide : startsWithB (lit "//! - **Layer:** ") (lit "//!") = true)]
      rfl
    · rw [startsWith_append_left _
        (by decide :
          startsWithB (lit "//! - **Purpose:** Implements internal responsibilities for ")
            (lit "//!") = true)]
      rfl
  · by_cases he : adrs.isEmpty = true
    · rw [if_pos he] at hl
      cases hl
    · rw [if_neg he, List.mem_singleton] at hl
      rw [hl, adrsBullet_starts]
      rfl

theorem synthDoc_all_cond (fp : Line) {doc : List Line}
    (hdoc : ∀ l ∈ doc, (startsWithB l (lit "//!") || isBlank l) = true) :
    ∀ l ∈ synthDoc fp doc, (startsWithB l (lit "//!") || isBlank l) = true := by
  intro l hl
  by_cases h : hasArchitecture doc = true
  · by_cases hskip : (determine_adrs fp).isEmpty = false ∧ hasAdrsLine doc = false
    · rw [synthDoc_eq_caseC_insert fp h hskip.1 hskip.2] at hl
      rcases mem_insertAt_iff hl with h2 | h2
      · rw [h2, adrsBullet_starts]
        rfl
      · exact hdoc l h2
    · rw [synthDoc_eq_caseC_skip fp h ?_] at hl
      · exact hdoc l hl
      · rcases Decidable.not_and_iff_or_not.1 hskip with h2 | h2
        · refine Or.inl ?_
          rcases hadr : determine_adrs fp with _ | _
          · rfl
          · rw [hadr] at h2
            exact absurd rfl h2
        · refine Or.inr ?_
          cases hline : hasAdrsLine doc with
          | true => rfl
          | false => exact absurd hline h2
  · have hfalse : hasArchitecture doc = false := by
      cases hh : hasArchitecture doc with
      | false => rfl
      | true => exact absurd hh h
    cases doc with
    | nil =>
      rw [synthDoc_eq_caseA] at hl
      exact caseA_all_cond _ _ _ l hl
    | cons d ds =>
      rw [synthDoc_eq_caseB fp (by simp) hfalse, List.mem_append] at hl
      rcases hl with hl | hl
      · exact hdoc l hl
      · exact caseB_all_cond _ _ _ l hl

theorem insertAt_shape_head (n m k : Nat) (b d : Line) (ds : List Line) :
    (insertAt (n + 1 + m + k) b (d :: ds)).head? = some d := by
  rw [show n + 1 + m + k = (n + m + k) + 1 by omega, insertAt_succ_cons, List.head?_cons]

theorem synthDoc_head (fp : Line) {doc : List Line}
    (hdoc : ∀ l, doc.head? = some l → startsWithB l (lit "//!") = true) :
    ∀ l, (synthDoc fp doc).head? = some l → startsWithB l (lit "//!") = true := by
  intro l hl
  by_cases h : hasArchitecture doc = true
  · have hdocne : doc ≠ [] := by
      intro hc
      rw [hc] at h
      exact absurd h (by decide)
    by_cases hskip : (determine_adrs fp).isEmpty = false ∧ hasAdrsLine doc = false
    · rw [synthDoc_eq_caseC_insert fp h hskip.1 hskip.2] at hl
      cases hdc : doc with
      | nil => exact absurd hdc hdocne
      | cons d ds =>
        rw [hdc] at hl
        simp only [insertAt_shape_head] at hl
        injection hl with hl
        rw [← hl]
        exact hdoc d (by rw [hdc]; rfl)
    · rw [synthDoc_eq_caseC_skip fp h ?_] at hl
      · exact hdoc l hl
      · rcases Decidable.not_and_iff_or_not.1 hskip with h2 | h2
        · refine Or.inl ?_
          rcases hadr : determine_adrs fp with _ | _
          · rfl
          · rw [hadr] at h2
            exact absurd rfl h2
        · refine Or.inr ?_
          cases hline : hasAdrsLine doc with
          | true => rfl
          | false => exact absurd hline h2
  · have hfalse : hasArchitecture doc = false := by
      cases hh : hasArchitecture doc with
      | false => rfl
      | true => exact absurd hh h
    cases doc with
    | nil =>
      rw [synthDoc_eq_caseA, caseALines] at hl
      rw [List.cons_append, List.head?_cons] at hl
      injection hl with hl
      rw [← hl]
      exact startsWith_append_left _ (by decide)
    | cons d ds =>
      rw [synthDoc_eq_caseB fp (by simp) hfalse, List.cons_append, List.head?_cons] at hl
      injection hl with hl
      rw [← hl]
      exact hdoc d rfl

/-- The insertion index computed by Case C. -/
def caseCInsertIdx (doc : List Line) : Nat :=
  let ai := doc.findIdx (fun l => containsSub l archHeading)
  let s := doc.drop (ai + 1)
  let a := advanceWhile condC1 s
  let b := advanceWhile (fun l => startsWithB l (lit "//! -")) (s.drop a)
  ai + 1 + a + b

theorem synthDoc_eq_caseC_idx (fp : Line) {doc : List Line}
    (h : hasArchitecture doc = true)
    (hadrs : (determine_adrs fp).isEmpty = false)
    (hno : hasAdrsLine doc = false) :
    synthDoc fp doc =
      insertAt (caseCInsertIdx doc) (adrsBullet (determine_adrs fp)) doc :=
  synthDoc_eq_caseC_insert fp h hadrs hno

theorem caseA_last (m layer : Line) (adrs : List Line) :
    ∀ l, (caseALines m layer adrs).getLast? = some l → isBlank l = false := by
  intro l hl
  rw [caseALines] at hl
  by_cases he : adrs.isEmpty = true
  · rw [if_pos he, List.append_nil] at hl
    have h8 : ([lit "//! " ++ m, lit "//!",
        lit "//! Provides " ++ pyLower m ++ lit " functionality for the system.",
        lit "//!", archHeading, lit "//!", lit "//! - **Layer:** " ++ layer,
        lit "//! - **Purpose:** Implements " ++ pyLower m]).getLast? =
        some (lit "//! - **Purpose:** Implements " ++ pyLower m) := rfl
    rw [h8] at hl
    injection hl with hl
    rw [← hl]
    exact not_blank_of_docStart (startsWith_append_left _ (by decide))
  · rw [if_neg he, List.getLast?_append_of_ne_nil _ (by simp)] at hl
    rw [show ([adrsBullet adrs] : List Line).getLast? = some (adrsBullet adrs)
      from rfl] at hl
    injection hl with hl
    rw [← hl]
    exact not_blank_of_docStart (adrsBullet_starts adrs)

theorem caseB_last (m layer : Line) (adrs : List Line) :
    ∀ l, (caseBSuffix m layer adrs).getLast? = some l → isBlank l = false := by
  intro l hl
  rw [caseBSuffix] at hl
  by_cases he : adrs.isEmpty = true
  · rw [if_pos he, List.append_nil] at hl
    have h5 : ([lit "//!", archHeading, lit "//!", lit "//! - **Layer:** " ++ layer,
        lit "//! - **Purpose:** Implements internal responsibilities for " ++
          pyLower m]).getLast? =
        some (lit "//! - **Purpose:** Implements internal responsibilities for " ++
          pyLower m) := rfl
    rw [h5] at hl
    injection hl with hl
    rw [← hl]
    exact not_blank_of_docStart (startsWith_append_left _ (by decide))
  · rw [if_neg he, List.getLast?_append_of_ne_nil _ (by simp)] at hl
    rw [show ([adrsBullet adrs] : List Line).getLast? = some (adrsBullet adrs)
      from rfl] at hl
    injection hl with hl
    rw [← hl]
    exact not_blank_of_docStart (adrsBullet_starts adrs)

theorem synthDoc_last (fp : Line) {doc : List Line}
    (hdoc : ∀ l, doc.getLast? = some l → isBlank l = false) :
    ∀ l, (synthDoc fp doc).getLast? = some l → isBlank l = false := by
  intro l hl
  by_cases h : hasArchitecture doc = true
  · by_cases hskip : (determine_adrs fp).isEmpty = false ∧ hasAdrsLine doc = false
    · rw [synthDoc_eq_caseC_idx fp h hskip.1 hskip.2] at hl
      rcases insertAt_getLast (adrsBullet (determine_adrs fp)) (caseCInsertIdx doc) doc
        with he | he
      · rw [he] at hl
        injection hl with hl
        rw [← hl]
        exact not_blank_of_docStart (adrsBullet_starts _)
      · rw [he] at hl
        exact hdoc l hl
    · rw [synthDoc_eq_caseC_skip fp h ?_] at hl
      · exact hdoc l hl
      · rcases Decidable.not_and_iff_or_not.1 hskip with h2 | h2
        · refine Or.inl ?_
          rcases hadr : determine_adrs fp with _ | _
          · rfl
          · rw [hadr] at h2
            exact absurd rfl h2
        · refine Or.inr ?_
          cases hline : hasAdrsLine doc with
          | true => rfl
          | false => exact absurd hline h2
  · have hfalse : hasArchitecture doc = false := by
      cases hh : hasArchitecture doc with
      | false => rfl
      | true => exact absurd hh h
    cases doc with
    | nil =>
      rw [synthDoc_eq_caseA] at hl
      exact caseA_last _ _ _ l hl
    | cons d ds =>
      rw [synthDoc_eq_caseB fp (by simp) hfalse,
        List.getLast?_append_of_ne_nil _ (by rw [caseBSuffix]; simp)] at hl
      exact caseB_last _ _ _ l hl

theorem hasAdrsLine_of_mem {doc : List Line} {l : Line} (hmem : l ∈ doc)
    (hc : containsSub l relatedADRs = true) : hasAdrsLine doc = true := by
  rw [hasAdrsLine, List.any_eq_true]
  exact ⟨l, hmem, hc⟩

theorem synthDoc_hasAdrs (fp : Line) (doc : List Line)
    (h : (determine_adrs fp).isEmpty = false) :
    hasAdrsLine (synthDoc fp doc) = true := by
  by_cases harch : hasArchitecture doc = true
  · by_cases hline : hasAdrsLine doc = true
    · rw [synthDoc_eq_caseC_skip fp harch (Or.inr hline)]
      exact hline
    · rw [synthDoc_eq_caseC_idx fp harch h (by
        cases hh : hasAdrsLine doc with
        | false => rfl
        | true => exact absurd hh hline)]
      exact hasAdrsLine_of_mem (self_mem_insertAt _ _ _) (adrsBullet_contains _)
  · have hfalse : hasArchitecture doc = false := by
      cases hh : hasArchitecture doc with
      | false => rfl
      | true => exact absurd hh harch
    cases doc with
    | nil =>
      rw [synthDoc_eq_caseA]
      refine hasAdrsLine_of_mem (l := adrsBullet (determine_adrs fp)) ?_
        (adrsBullet_contains _)
      rw [caseALines, if_neg (by rw [h]; exact Bool.false_ne_true)]
      exact List.mem_append.2 (Or.inr (List.mem_singleton.2 rfl))
    | cons d ds =>
      rw [synthDoc_eq_caseB fp (by simp) hfalse]
      refine hasAdrsLine_of_mem (l := adrsBullet (determine_adrs fp)) ?_
        (adrsBullet_contains _)
      refine List.mem_append.2 (Or.inr ?_)
      rw [caseBSuffix, if_neg (by rw [h]; exact Bool.false_ne_true)]
      exact List.mem_append.2 (Or.inr (List.mem_singleton.2 rfl))

theorem docZoneOf_all_cond (lines : List Line) :
    ∀ l ∈ docZoneOf lines, (startsWithB l (lit "//!") || isBlank l) = true :=
  fun l hl => docScanAux_mem_cond _ false l (stripTrailing_mem hl)

theorem docZoneOf_head (lines : List Line) :
    ∀ l, (docZoneOf lines).head? = some l → startsWithB l (lit "//!") = true :=
  fun l hl => docScanAux_head _ l (stripTrailing_head hl)

theorem docZoneOf_last (lines : List Line) :
    ∀ l, (docZoneOf lines).getLast? = some l → isBlank l = false :=
  fun _ hl => stripTrailing_last hl

theorem bodyZone_head (lines : List Line) :
    ∀ l, (bodyZone lines).head? = some l →
      (startsWithB l (lit "//!") || isBlank l) = false := by
  intro l hl
  rw [bodyZone] at hl
  cases hafter : (restAfterLicense lines).drop
      (docScanAux (restAfterLicense lines) false).2 with
  | nil => rw [hafter] at hl; cases hl
  | cons x xs =>
    have hx := docScanAux_stop (restAfterLicense lines) false x (by rw [hafter]; rfl)
    have hxb : isBlank x = false := by
      cases hbx : isBlank x with
      | false => rfl
      | true => rw [hbx, Bool.or_true] at hx; cases hx
    rw [hafter, List.dropWhile_cons_of_neg (by rw [hxb]; exact Bool.false_ne_true),
      List.head?_cons] at hl
    injection hl with hl
    rw [← hl]
    exact hx

/-! ## The fixed-point argument for idempotence -/

theorem processLines_fixed (fp : Line) (L : List Line) (d : Line) (ds B : List Line)
    (hscan : licenseScan (L ++ (d :: ds) ++ [[]] ++ B) = (L, true))
    (hd : startsWithB d (lit "//!") = true)
    (hds : ∀ l ∈ ds, (startsWithB l (lit "//!") || isBlank l) = true)
    (hlast : ∀ l, (d :: ds).getLast? = some l → isBlank l = false)
    (harch : hasArchitecture (d :: ds) = true)
    (hadrs : (determine_adrs fp).isEmpty = false → hasAdrsLine (d :: ds) = true)
    (hB : ∀ l, B.head? = some l → (startsWithB l (lit "//!") || isBlank l) = false) :
    processLines fp (L ++ (d :: ds) ++ [[]] ++ B) = L ++ (d :: ds) ++ [[]] ++ B := by
  have hassoc : L ++ (d :: ds) ++ [[]] ++ B = L ++ (d :: (ds ++ ([[]] ++ B))) := by
    rw [List.append_assoc, List.append_assoc]
    rfl
  have hrest : restAfterLicense (L ++ (d :: ds) ++ [[]] ++ B) =
      d :: (ds ++ ([[]] ++ B)) := by
    rw [restAfterLicense, hscan]
    show List.drop L.length (L ++ (d :: ds) ++ [[]] ++ B) = _
    rw [hassoc, List.drop_left]
  have hB0 : docScanAux B true = ([], 0) := by
    cases hBc : B with
    | nil => rfl
    | cons x xs =>
      exact docScanAux_stop_eq xs true (hB x (by rw [hBc]; rfl))
  have hcond : ∀ l ∈ ds ++ [[]], (startsWithB l (lit "//!") || isBlank l) = true := by
    intro l hl
    rcases List.mem_append.1 hl with hl | hl
    · exact hds l hl
    · rw [List.mem_singleton] at hl
      rw [hl]
      decide
  have hscan2 : docScanAux (d :: (ds ++ ([[]] ++ B))) false =
      (d :: (ds ++ [[]]), ds.length + 2) := by
    rw [docScanAux_start _ hd, ← List.append_assoc, docScanAux_all B _ hcond, hB0]
    refine Prod.ext ?_ ?_
    · show d :: ((ds ++ [[]]) ++ []) = d :: (ds ++ [[]])
      rw [List.append_nil]
    · show (ds ++ [[]]).length + 0 + 1 = ds.length + 2
      rw [List.length_append]
      rfl
  have hdoczone : docZoneOf (L ++ (d :: ds) ++ [[]] ++ B) = d :: ds := by
    rw [docZoneOf, hrest, hscan2]
    show stripTrailingBlanks ((d :: ds) ++ [[]]) = d :: ds
    exact stripTrailing_append_blank hlast
  have hsynth : synthDoc fp (d :: ds) = d :: ds := by
    refine synthDoc_eq_caseC_skip fp harch ?_
    cases hadr : (determine_adrs fp) with
    | nil => exact Or.inl rfl
    | cons a as =>
      refine Or.inr (hadrs ?_)
      rw [hadr]
      rfl
  have hbody : bodyZone (L ++ (d :: ds) ++ [[]] ++ B) = B := by
    rw [bodyZone, hrest, hscan2]
    show ((d :: (ds ++ ([[]] ++ B))).drop (ds.length + 1 + 1)).dropWhile isBlank = B
    rw [List.drop_succ_cons, drop_len_plus ds ([[]] ++ B) 1]
    show (List.drop 1 ([] :: B)).dropWhile isBlank = B
    rw [show (1 : Nat) = 0 + 1 from rfl, List.drop_succ_cons, List.drop_zero]
    cases hBc : B with
    | nil => rfl
    | cons x xs =>
      have hx := hB x (by rw [hBc]; rfl)
      have hxb : isBlank x = false := by
        cases hbx : isBlank x with
        | false => rfl
        | true => rw [hbx, Bool.or_true] at hx; cases hx
      rw [List.dropWhile_cons_of_neg (by rw [hxb]; exact Bool.false_ne_true)]
  have hlic : licenseZoneOut (L ++ (d :: ds) ++ [[]] ++ B) = L := by
    rw [licenseZoneOut, hscan, if_pos rfl]
  rw [processLines_eq, hlic, hdoczone, hsynth, hbody]

/-- C1 counterexample: the transformation is not idempotent on inputs
with no license header.  On the second run the blank line of the
freshly prepended header sits at index 2, where the scan's `idx < 2`
guard refuses to consume it, so the blank separator is dropped and the
second application reports a change. -/
theorem C1_counterexample :
    process_file (lit "main.rs") (process_file (lit "main.rs") (lit "fn main()")) ≠
      process_file (lit "main.rs") (lit "fn main()") := by
  decide

/-- C1 amended: idempotence holds for every input whose first line
starts with one of the two license markers (so the license scan
consumes an existing header instead of prepending one): applying the
per-file transformation twice yields exactly the result of applying it
once, hence the second application reports no change. -/
theorem C1_amended (fp l0 : Line) (rest : List Line)
    (h : isLicenseLine l0 = true) :
    processLines fp (processLines fp (l0 :: rest)) =
      processLines fp (l0 :: rest) := by
  have hcp : (licenseScan (l0 :: rest)).2 = true := by
    rw [licenseScan_cp_eq]
    exact h
  have hlicout : licenseZoneOut (l0 :: rest) = (licenseScan (l0 :: rest)).1 := by
    rw [licenseZoneOut, if_pos hcp]
  cases hD : synthDoc fp (docZoneOf (l0 :: rest)) with
  | nil => exact absurd hD (synthDoc_ne_nil fp (docZoneOf (l0 :: rest)))
  | cons d ds =>
    have hdstart : startsWithB d (lit "//!") = true := by
      refine synthDoc_head fp (docZoneOf_head (l0 :: rest)) d ?_
      rw [hD]
      rfl
    have hout1 : processLines fp (l0 :: rest) =
        (licenseScan (l0 :: rest)).1 ++ (d :: ds) ++ [[]] ++
          bodyZone (l0 :: rest) := by
      rw [processLines_eq, hlicout, hD]
    rw [hout1]
    refine processLines_fixed fp ((licenseScan (l0 :: rest)).1) d ds
      (bodyZone (l0 :: rest)) ?_ hdstart ?_ ?_ ?_ ?_ ?_
    · have hpre1 : (licenseScanAux ((licenseScan (l0 :: rest)).1) 0 false).1 =
          (licenseScan (l0 :: rest)).1 := by
        show (licenseScanAux ((licenseScanAux (l0 :: rest) 0 false).1) 0 false).1 =
          (licenseScanAux (l0 :: rest) 0 false).1
        rw [licenseScanAux_self]
      have hpre2 : (licenseScanAux ((licenseScan (l0 :: rest)).1) 0 false).2 = true := by
        show (licenseScanAux ((licenseScanAux (l0 :: rest) 0 false).1) 0 false).2 = true
        rw [licenseScanAux_self]
        exact hcp
      have hshape : (licenseScan (l0 :: rest)).1 ++ (d :: ds) ++ [[]] ++
          bodyZone (l0 :: rest) =
          (licenseScan (l0 :: rest)).1 ++
            (d :: ((ds ++ [[]]) ++ bodyZone (l0 :: rest))) := by
        simp [List.append_assoc]
      rw [hshape, licenseScan,
        licenseScanAux_append _ ((licenseScan (l0 :: rest)).1) 0 false hpre1,
        licenseScanAux_stop _ _ _ (not_license_of_docStart hdstart)
          (not_blank_of_docStart hdstart)]
      refine Prod.ext ?_ ?_
      · show (licenseScan (l0 :: rest)).1 ++ [] = (licenseScan (l0 :: rest)).1
        rw [List.append_nil]
      · exact hpre2
    · intro l hl
      refine synthDoc_all_cond fp (docZoneOf_all_cond (l0 :: rest)) l ?_
      rw [hD]
      exact List.mem_cons_of_mem _ hl
    · intro l hl
      refine synthDoc_last fp (docZoneOf_last (l0 :: rest)) l ?_
      rw [hD]
      exact hl
    · have := hasArchitecture_synthDoc fp (docZoneOf (l0 :: rest))
      rw [hD] at this
      exact this
    · intro hh
      have := synthDoc_hasAdrs fp (docZoneOf (l0 :: rest)) hh
      rw [hD] at this
      exact this
    · exact bodyZone_head (l0 :: rest)

/-- Witness for C1 amended at a concrete licensed file. -/
theorem C1_witness :
    processLines (lit "k.rs")
        (processLines (lit "k.rs")
          [lit "// Copyright (c) 2026 100monkeys.ai", lit "fn k()"]) =
      processLines (lit "k.rs")
        [lit "// Copyright (c) 2026 100monkeys.ai", lit "fn k()"] :=
  C1_amended (lit "k.rs") (lit "// Copyright (c) 2026 100monkeys.ai")
    [lit "fn k()"] (by decide)

/-! ## C5: counting `Related ADRs` lines -/

/-- The number of lines containing the `Related ADRs` phrase. -/
def countAdrsLines (ls : List Line) : Nat :=
  (ls.filter (fun l => containsSub l relatedADRs)).length

theorem countAdrs_append (a b : List Line) :
    countAdrsLines (a ++ b) = countAdrsLines a + countAdrsLines b := by
  rw [countAdrsLines, countAdrsLines, countAdrsLines, List.filter_append,
    List.length_append]

theorem countAdrs_cons (l : Line) (ls : List Line) :
    countAdrsLines (l :: ls) =
      (if containsSub l relatedADRs = true then 1 else 0) + countAdrsLines ls := by
  rw [countAdrsLines, List.filter_cons]
  by_cases hc : containsSub l relatedADRs = true
  · rw [if_pos hc, if_pos hc, List.length_cons, countAdrsLines]
    omega
  · rw [if_neg hc, if_neg hc, countAdrsLines]
    omega

theorem count_dropWhile_blank : ∀ (y : List Line),
    countAdrsLines (y.dropWhile isBlank) = countAdrsLines y
  | [] => rfl
  | x :: y => by
    by_cases hb : isBlank x = true
    · rw [List.dropWhile_cons_of_pos hb, count_dropWhile_blank y, countAdrs_cons,
        blank_no_relatedADRs hb]
      simp
    · rw [List.dropWhile_cons_of_neg hb]

theorem count_reverse (y : List Line) :
    countAdrsLines y.reverse = countAdrsLines y := by
  rw [countAdrsLines, countAdrsLines, List.filter_reverse, List.length_reverse]

theorem count_stripTrailing (x : List Line) :
    countAdrsLines (stripTrailingBlanks x) = countAdrsLines x := by
  rw [stripTrailingBlanks, count_reverse, count_dropWhile_blank, count_reverse]

theorem docScan_count_take : ∀ (rest : List Line) (ne : Bool),
    countAdrsLines (rest.take (docScanAux rest ne).2) =
      countAdrsLines ((docScanAux rest ne).1)
  | [], _ => rfl
  | x :: rest, ne => by
    rw [docScanAux]
    by_cases hc : (startsWithB x (lit "//!") || isBlank x) = true
    · rw [if_pos hc]
      by_cases hskip : (isBlank x && !ne) = true
      · rw [if_pos hskip]
        show countAdrsLines ((x :: rest).take ((docScanAux rest ne).2 + 1)) =
          countAdrsLines ((docScanAux rest ne).1)
        have hbx : isBlank x = true := by
          cases hb : isBlank x with
          | true => rfl
          | false => rw [hb, Bool.false_and] at hskip; cases hskip
        rw [List.take_succ_cons, countAdrs_cons, blank_no_relatedADRs hbx]
        rw [docScan_count_take rest ne]
        simp
      · rw [if_neg hskip]
        show countAdrsLines ((x :: rest).take ((docScanAux rest true).2 + 1)) =
          countAdrsLines (x :: (docScanAux rest true).1)
        rw [List.take_succ_cons, countAdrs_cons, countAdrs_cons,
          docScan_count_take rest true]
    · rw [if_neg hc]
      rfl

theorem layer_cases (p : Line) :
    determine_layer p = lit "Domain Layer" ∨
    determine_layer p = lit "Application Layer" ∨
    determine_layer p = lit "Infrastructure Layer" ∨
    determine_layer p = lit "Presentation Layer" ∨
    determine_layer p = lit "Interface / Presentation Layer" ∨
    determine_layer p = lit "Swarm Coordination Layer" ∨
    determine_layer p = lit "Learning & Memory Layer" ∨
    determine_layer p = lit "Core System" := by
  simp only [determine_layer]
  split_ifs <;> simp

theorem layer_bullet_clean (p : Line) :
    containsSub (lit "//! - **Layer:** " ++ determine_layer p) relatedADRs = false := by
  rcases layer_cases p with h | h | h | h | h | h | h | h <;> rw [h] <;> decide

theorem pyLower_getLast_ne_A (x : Line) : (pyLower x).getLast? ≠ some 'A' := by
  intro h
  rw [← List.head?_reverse, pyLower, ← List.map_reverse, List.head?_map] at h
  cases hx : x.reverse.head? with
  | none => rw [hx] at h; cases h
  | some c =>
    rw [hx] at h
    injection h with h
    exact toLower_ne_A c h

theorem append_getLast_ne_A {a b : Line} (ha : a.getLast? ≠ some 'A')
    (hb : b.getLast? ≠ some 'A') : (a ++ b).getLast? ≠ some 'A' := by
  rw [List.getLast?_append]
  cases hbl : b.getLast? with
  | none => exact fun hx => ha hx
  | some c =>
    rw [hbl] at hb
    exact fun hx => hb hx

theorem module_no_AD (fp : Line) :
    containsSub (module_name fp) ('A' :: 'D' :: []) = false :=
  title_no_AD _ false

theorem headline_clean (fp : Line) :
    containsSub (lit "//! " ++ module_name fp) relatedADRs = false :=
  no_relatedADRs (no_AD_append (lit "//! ") (by decide) (by decide) _ (module_no_AD fp))

theorem provides_clean (fp : Line) :
    containsSub
      (lit "//! Provides " ++ pyLower (module_name fp) ++
        lit " functionality for the system.") relatedADRs = false := by
  refine no_relatedADRs (no_AD_append _ ?_ ?_ _ (by decide))
  · exact no_AD_append (lit "//! Provides ") (by decide) (by decide) _
      (lower_no_AD (module_name fp))
  · exact append_getLast_ne_A (by decide) (pyLower_getLast_ne_A (module_name fp))

theorem purposeA_clean (fp : Line) :
    containsSub (lit "//! - **Purpose:** Implements " ++ pyLower (module_name fp))
      relatedADRs = false :=
  no_relatedADRs (no_AD_append (lit "//! - **Purpose:** Implements ") (by decide)
    (by decide) _ (lower_no_AD (module_name fp)))

theorem purposeB_clean (fp : Line) :
    containsSub (lit "//! - **Purpose:** Implements internal responsibilities for " ++
      pyLower (module_name fp)) relatedADRs = false :=
  no_relatedADRs (no_AD_append
    (lit "//! - **Purpose:** Implements internal responsibilities for ") (by decide)
    (by decide) _ (lower_no_AD (module_name fp)))

theorem countAdrs_caseA (fp : Line) :
    countAdrsLines
        (caseALines (module_name fp) (determine_layer fp) (determine_adrs fp)) =
      if (determine_adrs fp).isEmpty = true then 0 else 1 := by
  rw [caseALines, countAdrs_append]
  have hlist : countAdrsLines [lit "//! " ++ module_name fp, lit "//!",
      lit "//! Provides " ++ pyLower (module_name fp) ++
        lit " functionality for the system.",
      lit "//!", archHeading, lit "//!",
      lit "//! - **Layer:** " ++ determine_layer fp,
      lit "//! - **Purpose:** Implements " ++ pyLower (module_name fp)] = 0 := by
    rw [countAdrs_cons, headline_clean fp,
      countAdrs_cons, countAdrs_cons, provides_clean fp,
      countAdrs_cons, countAdrs_cons, countAdrs_cons,
      countAdrs_cons, layer_bullet_clean fp,
      countAdrs_cons, purposeA_clean fp]
    norm_num
    decide
  rw [hlist]
  by_cases he : (determine_adrs fp).isEmpty = true
  · rw [if_pos he, if_pos he]
    rfl
  · rw [if_neg he, if_neg he, countAdrs_cons, adrsBullet_contains]
    rfl

theorem countAdrs_caseB (fp : Line) :
    countAdrsLines
        (caseBSuffix (module_name fp) (determine_layer fp) (determine_adrs fp)) =
      if (determine_adrs fp).isEmpty = true then 0 else 1 := by
  rw [caseBSuffix, countAdrs_append]
  have hlist : countAdrsLines [lit "//!", archHeading, lit "//!",
      lit "//! - **Layer:** " ++ determine_layer fp,
      lit "//! - **Purpose:** Implements internal responsibilities for " ++
        pyLower (module_name fp)] = 0 := by
    rw [countAdrs_cons, countAdrs_cons, countAdrs_cons,
      countAdrs_cons, layer_bullet_clean fp,
      countAdrs_cons, purposeB_clean fp]
    norm_num
    decide
  rw [hlist]
  by_cases he : (determine_adrs fp).isEmpty = true
  · rw [if_pos he, if_pos he]
    rfl
  · rw [if_neg he, if_neg he, countAdrs_cons, adrsBullet_contains]
    rfl

theorem countAdrs_insertAt {b : Line} (hb : containsSub b relatedADRs = true)
    (i : Nat) (doc : List Line) :
    countAdrsLines (insertAt i b doc) = countAdrsLines doc + 1 := by
  rw [insertAt, countAdrs_append, countAdrs_append, countAdrs_cons, hb]
  conv_rhs => rw [← List.take_append_drop i doc, countAdrs_append]
  have h0 : countAdrsLines ([] : List Line) = 0 := rfl
  have h1 : (if (True : Prop) then 1 else 0) = 1 := if_pos trivial
  simp only [h0]
  omega

theorem countAdrs_synthDoc (fp : Line) (doc : List Line) :
    countAdrsLines (synthDoc fp doc) =
      countAdrsLines doc +
        (if (!(determine_adrs fp).isEmpty &&
            (!(hasArchitecture doc) || !(hasAdrsLine doc))) = true then 1 else 0) := by
  by_cases harch : hasArchitecture doc = true
  · by_cases hline : hasAdrsLine doc = true
    · rw [synthDoc_eq_caseC_skip fp harch (Or.inr hline), harch, hline]
      simp
    · have hlineF : hasAdrsLine doc = false := by
        cases hh : hasAdrsLine doc with
        | false => rfl
        | true => exact absurd hh hline
      by_cases he : (determine_adrs fp).isEmpty = true
      · have hnil : determine_adrs fp = [] := by
          cases hadr : determine_adrs fp with
          | nil => rfl
          | cons a as => rw [hadr] at he; cases he
        rw [synthDoc_eq_caseC_skip fp harch (Or.inl hnil), harch, hlineF, he]
        simp
      · have heF : (determine_adrs fp).isEmpty = false := by
          cases hh : (determine_adrs fp).isEmpty with
          | false => rfl
          | true => exact absurd hh he
        rw [synthDoc_eq_caseC_idx fp harch heF hlineF,
          countAdrs_insertAt (adrsBullet_contains _) _ _, harch, hlineF, heF]
        simp
  · have harchF : hasArchitecture doc = false := by
      cases hh : hasArchitecture doc with
      | false => rfl
      | true => exact absurd hh harch
    cases doc with
    | nil =>
      rw [synthDoc_eq_caseA, countAdrs_caseA, harchF]
      by_cases he : (determine_adrs fp).isEmpty = true
      · rw [if_pos he, he]
        simp
        rfl
      · have heF : (determine_adrs fp).isEmpty = false := by
          cases hh : (determine_adrs fp).isEmpty with
          | false => rfl
          | true => exact absurd hh he
        rw [if_neg he, heF]
        simp
        rfl
    | cons d ds =>
      rw [synthDoc_eq_caseB fp (by simp) harchF, countAdrs_append, countAdrs_caseB,
        harchF]
      by_cases he : (determine_adrs fp).isEmpty = true
      · rw [if_pos he, he]
        simp
      · have heF : (determine_adrs fp).isEmpty = false := by
          cases hh : (determine_adrs fp).isEmpty with
          | false => rfl
          | true => exact absurd hh he
        rw [if_neg he, heF]
        simp

/-- C5 counterexample: when the Doc zone already holds a
`Related ADRs` bullet but no Architecture heading, Case B appends a
whole new Architecture section including a second `Related ADRs`
bullet, so the output holds one MORE such bullet than the input,
contradicting the claim's "zero additional ones". -/
theorem C5_counterexample :
    countAdrsLines [lit "//! - **Related ADRs:** ADR-001: Old", lit "fn q()"] = 1 ∧
      countAdrsLines (processLines (lit "storage/fsal/q.rs")
        [lit "//! - **Related ADRs:** ADR-001: Old", lit "fn q()"]) = 2 := by
  decide

/-- C5 amended: the number of `Related ADRs` lines grows by exactly one
iff the ReferenceSet is non-empty and (the Doc zone has no Architecture
heading, or it has no existing `Related ADRs` line); otherwise it is
unchanged.  In particular the claim's first half holds (non-empty
ReferenceSet and no existing bullet gives exactly one more), and an
existing bullet suppresses the insertion only when the Architecture
heading is present. -/
theorem C5_amended (fp : Line) (lines : List Line) :
    countAdrsLines (processLines fp lines) =
      countAdrsLines lines +
        (if (!(determine_adrs fp).isEmpty &&
            (!(hasArchitecture (docZoneOf lines)) ||
              !(hasAdrsLine (docZoneOf lines)))) = true then 1 else 0) := by
  rw [processLines_eq, countAdrs_append, countAdrs_append, countAdrs_append]
  have hsep : countAdrsLines [[]] = 0 := by decide
  have hsynth := countAdrs_synthDoc fp (docZoneOf lines)
  have hdoc : countAdrsLines (docZoneOf lines) =
      countAdrsLines ((restAfterLicense lines).take
        (docScanAux (restAfterLicense lines) false).2) := by
    rw [docZoneOf, count_stripTrailing, ← docScan_count_take]
  have hbody : countAdrsLines (bodyZone lines) =
      countAdrsLines ((restAfterLicense lines).drop
        (docScanAux (restAfterLicense lines) false).2) := by
    rw [bodyZone, count_dropWhile_blank]
  have hrest : countAdrsLines ((restAfterLicense lines).take
        (docScanAux (restAfterLicense lines) false).2) +
      countAdrsLines ((restAfterLicense lines).drop
        (docScanAux (restAfterLicense lines) false).2) =
      countAdrsLines (restAfterLicense lines) := by
    rw [← countAdrs_append, List.take_append_drop]
  by_cases hcp : (licenseScan lines).2 = true
  · have hlic : licenseZoneOut lines = (licenseScan lines).1 := by
      rw [licenseZoneOut, if_pos hcp]
    have hlines : countAdrsLines lines =
        countAdrsLines ((licenseScan lines).1) +
          countAdrsLines (restAfterLicense lines) := by
      obtain ⟨t, ht⟩ := licenseScanAux_isPrefix lines 0 false
      have hdrop : restAfterLicense lines = t := by
        rw [restAfterLicense, if_pos hcp]
        calc lines.drop (licenseScan lines).1.length
            = ((licenseScan lines).1 ++ t).drop (licenseScan lines).1.length := by
              rw [show (licenseScan lines).1 ++ t = lines from ht]
          _ = t := List.drop_left _ _
      rw [hdrop]
      conv_lhs => rw [← show (licenseScan lines).1 ++ t = lines from ht]
      rw [countAdrs_append]
    rw [hlic, hsep, hsynth, hdoc, hbody, hlines]
    omega
  · have hlic : licenseZoneOut lines = licenseHeader ++ (licenseScan lines).1 := by
      rw [licenseZoneOut, if_neg hcp]
    have hcpF : (licenseScan lines).2 = false := by
      cases hh : (licenseScan lines).2 with
      | false => rfl
      | true => exact absurd hh hcp
    have hnil : (licenseScan lines).1 = [] := licenseScanAux_nil_of_cp_false lines hcpF
    have hrest2 : restAfterLicense lines = lines := by
      rw [restAfterLicense, if_neg hcp]
    have hheader : countAdrsLines (licenseHeader ++ (licenseScan lines).1) = 0 := by
      rw [hnil, List.append_nil]
      decide
    rw [hrest2] at hdoc hbody hrest
    rw [hlic, hsep, hsynth, hheader, hdoc, hbody]
    omega
